import Mathlib

/-!
Verification development for the qsafevault-server repository.

This file gives a shallow embedding, in Lean 4, of the session-state engine of
the server, translated from the JavaScript sources:

* `src/sessionManager.js` — the chunk-based relay engine (`pushChunk`,
  `nextChunk`, `setAcknowledged`, `getAcknowledged`) over the in-memory
  storage backend, with expiry-on-read;
* `src/api/_lib/store.js` + `src/api/_lib/utils.js` — the key-value store
  used by the envelope-session REST handlers (in-memory backend: value plus
  absolute expiry in milliseconds, `memGet`/`memSet`/`memDel`/`memTtl`,
  `kvIncr`, `kvSetNx`, `kvExpire`), and the handlers
  `resolve.js`, `offer.js`, `answer.js`, the idempotent DELETE handler;
* the Express server variant (in-process sessions map, PIN map, the
  delete / offer / answer routes);
* the legacy `api/v1/sessions/[sessionId]/index.js` DELETE handler over
  `sessionStore.js`.

Machine integers are modelled as `Int`/`Nat` (the JavaScript numbers involved
are integral millisecond timestamps, lengths and counters), JS objects used as
dictionaries are association lists, and JS `Map`s are association lists with
replace-all / delete-all update so that lookup agrees with `Map` semantics.
All operations take the current time `t` (milliseconds) explicitly, standing
for `Date.now()`.
-/

/-! ## Association-list dictionaries (JS objects and `Map`s)

JS objects used as dictionaries and JS `Map`s (whose keys are unique) are
modelled as association lists: lookup takes the first binding, assignment
replaces the binding in place or appends a fresh one, deletion removes the
bindings of the key. -/

/-- `m.get(k)` / `obj[k]`. -/
def mapFind {κ α : Type} [DecidableEq κ] (m : List (κ × α)) (k : κ) : Option α :=
  (m.find? (fun p => p.1 = k)).map (·.2)

/-- `m.set(k, v)` / `obj[k] = v`: replace in place, or append. -/
def mapSet {κ α : Type} [DecidableEq κ] : List (κ × α) → κ → α → List (κ × α)
  | [], k, v => [(k, v)]
  | p :: rest, k, v => if p.1 = k then (k, v) :: rest else p :: mapSet rest k v

/-- `m.delete(k)` / `delete obj[k]`. -/
def mapDel {κ α : Type} [DecidableEq κ] (m : List (κ × α)) (k : κ) : List (κ × α) :=
  m.filter (fun p => ¬ p.1 = k)

/-! ## Relay-session engine (`src/sessionManager.js`, in-memory backend)

One relay channel is identified by an `(inviteCode, passwordHash)` pair; the
storage keys derived from distinct pairs are distinct, so the engine state for
one channel is the pair of the optional session record (`sess/…` key) and the
optional acknowledgment record (`ack/…` key).  `CHUNK_TTL_MS = 60000`. -/

/-- The constant `CHUNK_TTL_MS` from `sessionManager.js`. -/
def CHUNK_TTL_MS : Nat := 60000

/-- A relay session record, as written by `pushChunk`/`nextChunk`. -/
structure RelaySession where
  created : Nat
  lastTouched : Nat
  expires : Nat
  totalChunks : Nat
  chunks : List (Nat × String)
  delivered : List Nat
  completed : Bool
  acknowledged : Bool
deriving Repr, DecidableEq

/-- The acknowledgment record stored at the `ack/…` key. -/
structure AckRec where
  acknowledged : Bool
  expires : Nat
deriving Repr, DecidableEq

/-- Storage state of one relay channel. -/
structure RelayState where
  sess : Option RelaySession
  ack : Option AckRec
deriving Repr, DecidableEq

/-- The empty storage (no records). -/
def emptyRelay : RelayState := ⟨none, none⟩

/-- `readStorage(sessionKey)`: expiry-on-read deletes a record whose
`expires` is in the past and reports it absent. -/
def readSess (t : Nat) (st : RelayState) : Option RelaySession × RelayState :=
  match st.sess with
  | none => (none, st)
  | some s => if s.expires < t then (none, { st with sess := none }) else (some s, st)

/-- `readStorage(ackKey)` with expiry-on-read. -/
def readAck (t : Nat) (st : RelayState) : Option AckRec × RelayState :=
  match st.ack with
  | none => (none, st)
  | some a => if a.expires < t then (none, { st with ack := none }) else (some a, st)

/-- Result of a relay action (`status` plus optional `error` and chunk). -/
structure RelayRes where
  status : String
  error : Option String := none
  chunk : Option (Nat × Nat × String) := none
deriving Repr, DecidableEq

/-- `pushChunk({pin, passwordHash, chunkIndex, totalChunks, data})` from
`src/sessionManager.js`.  The `typeof` guards hold by typing; the remaining
validation, session creation, mismatch/duplicate checks and the final write
are translated verbatim. -/
def pushChunk (t : Nat) (st : RelayState) (_pin _passwordHash : String)
    (chunkIndex totalChunks : Int) (data : String) : RelayRes × RelayState :=
  if chunkIndex < 0 ∨ chunkIndex ≥ totalChunks ∨ totalChunks < 1 ∨ totalChunks > 2048 ∨
      data.length > 48 * 1024 then
    ({ status := "waiting", error := some "invalid_chunk" }, st)
  else
    let rd := readSess t st
    match rd.1 with
    | none =>
      let sess : RelaySession :=
        { created := t, lastTouched := t, expires := t + CHUNK_TTL_MS,
          totalChunks := totalChunks.toNat,
          chunks := mapSet [] chunkIndex.toNat data,
          delivered := [], completed := false, acknowledged := false }
      ({ status := "waiting" }, { rd.2 with sess := some sess })
    | some sess =>
      if (sess.totalChunks : Int) ≠ totalChunks then
        ({ status := "waiting", error := some "totalChunks_mismatch" }, rd.2)
      else if sess.delivered.contains chunkIndex.toNat ∨
          (mapFind sess.chunks chunkIndex.toNat).isSome then
        ({ status := "waiting", error := some "duplicate_chunk" }, rd.2)
      else
        let sess' := { sess with
          chunks := mapSet sess.chunks chunkIndex.toNat data,
          lastTouched := t, expires := t + CHUNK_TTL_MS }
        ({ status := "waiting" }, { rd.2 with sess := some sess' })

/-- The scan loop of `nextChunk`: for `i` from the given start for `fuel`
steps, the first `i` with `chunks[i] !== undefined && !delivered.includes(i)`,
together with its data. -/
def scanPending (c : List (Nat × String)) (d : List Nat) : Nat → Nat → Option (Nat × String)
  | _, 0 => none
  | i, fuel + 1 =>
    match mapFind c i with
    | some v => if d.contains i then scanPending c d (i + 1) fuel else some (i, v)
    | none => scanPending c d (i + 1) fuel

/-- `nextChunk({pin, passwordHash})` from `src/sessionManager.js`. -/
def nextChunk (t : Nat) (st : RelayState) : RelayRes × RelayState :=
  let rd := readSess t st
  match rd.1 with
  | none => ({ status := "expired" }, rd.2)
  | some sess =>
    if t - sess.lastTouched > CHUNK_TTL_MS then
      ({ status := "expired" }, { rd.2 with sess := none })
    else if sess.completed then
      let ra := readAck t rd.2
      match ra.1 with
      | some a =>
        if a.acknowledged then ({ status := "done" }, { ra.2 with sess := none, ack := none })
        else ({ status := "done" }, ra.2)
      | none => ({ status := "done" }, ra.2)
    else
      match scanPending sess.chunks sess.delivered 0 sess.totalChunks with
      | some (i, data) =>
        let sess' := { sess with
          chunks := mapDel sess.chunks i,
          delivered := sess.delivered ++ [i],
          lastTouched := t, expires := t + CHUNK_TTL_MS }
        ({ status := "chunkAvailable", chunk := some (i, sess.totalChunks, data) },
          { rd.2 with sess := some sess' })
      | none =>
        if sess.delivered.length = sess.totalChunks then
          ({ status := "done" },
            { rd.2 with sess := some { sess with completed := true, chunks := [] } })
        else ({ status := "waiting" }, rd.2)

/-- `setAcknowledged(pin, passwordHash)` from `src/sessionManager.js`. -/
def setAcknowledged (t : Nat) (st : RelayState) : RelayState :=
  let st1 := { st with ack := some { acknowledged := true, expires := t + CHUNK_TTL_MS } }
  let rd := readSess t st1
  match rd.1 with
  | some sess =>
    let sess' := { sess with
      acknowledged := true, lastTouched := t, expires := t + CHUNK_TTL_MS }
    { rd.2 with sess := some sess' }
  | none => rd.2

/-- `getAcknowledged(pin, passwordHash)` from `src/sessionManager.js`:
the ack record is consulted first, then the session flag. -/
def getAcknowledged (t : Nat) (st : RelayState) : Bool × RelayState :=
  let ra := readAck t st
  match ra.1 with
  | some a =>
    if a.acknowledged then (true, ra.2)
    else
      let rd := readSess t ra.2
      ((rd.1.map (·.acknowledged)).getD false, rd.2)
  | none =>
    let rd := readSess t ra.2
    ((rd.1.map (·.acknowledged)).getD false, rd.2)

/-- One client-visible relay operation on a channel (the per-call time is
supplied separately when running a trace). -/
inductive RelayOp
  | push (pin passwordHash : String) (chunkIndex totalChunks : Int) (data : String)
  | next
  | setAck
  | getAck
deriving Repr, DecidableEq

/-- Apply one timed relay operation to the channel state. -/
def applyRelayOp (st : RelayState) : Nat × RelayOp → RelayState
  | (t, .push pin ph i n d) => (pushChunk t st pin ph i n d).2
  | (t, .next) => (nextChunk t st).2
  | (t, .setAck) => setAcknowledged t st
  | (t, .getAck) => (getAcknowledged t st).2

/-- Run a trace of timed relay operations from the empty storage. -/
def runRelay (ops : List (Nat × RelayOp)) : RelayState :=
  ops.foldl applyRelayOp emptyRelay

/-- The invariant of a relay session stated by the specification:
`delivered` is disjoint from the keys of `chunks`, all indices on either side
lie below `totalChunks`, at most `totalChunks` indices are delivered, and a
completed session has no pending chunks. -/
def SessClaimInv (s : RelaySession) : Prop :=
  (∀ i ∈ s.delivered, mapFind s.chunks i = none) ∧
  (∀ i ∈ s.delivered, i < s.totalChunks) ∧
  (∀ p ∈ s.chunks, p.1 < s.totalChunks) ∧
  s.delivered.length ≤ s.totalChunks ∧
  (s.completed = true → s.chunks = [])

/-- Strengthened inductive invariant used to prove `SessClaimInv`. -/
def SessInv (s : RelaySession) : Prop :=
  (∀ i ∈ s.delivered, mapFind s.chunks i = none) ∧
  (∀ i ∈ s.delivered, i < s.totalChunks) ∧
  (∀ p ∈ s.chunks, p.1 < s.totalChunks) ∧
  s.delivered.Nodup ∧
  (s.completed = true → s.chunks = [] ∧ s.delivered.length = s.totalChunks)

/-- The state-level invariant: the stored session, if any, satisfies
`SessInv`. -/
def StateInv (st : RelayState) : Prop :=
  ∀ s, st.sess = some s → SessInv s

/-! ### Specification-side predicates

The following predicates transcribe the *wording of the specification claim*
about push validation — they are deliberately written from the spec, not from
the source, so that the claim can be compared against the code. -/

/-- Spec wording: invite code is 8 case-sensitive alphanumeric characters. -/
def specInviteCodeFormat (s : String) : Bool :=
  s.length = 8 && s.toList.all (·.isAlphanum)

/-- Spec wording: a password-hash character (base64 / base64url / hex). -/
def specHashChar (c : Char) : Bool :=
  c.isAlphanum || c = '+' || c = '/' || c = '-' || c = '_' || c = '='

/-- Spec wording: password hash is 16–256 chars of base64/base64url/hex. -/
def specHashFormat (s : String) : Bool :=
  16 ≤ s.length && s.length ≤ 256 && s.toList.all specHashChar

/-- The malformedness condition asserted by the claim for `push` (including
the invite-code and password-hash format clauses). -/
def specPushMalformed (pin passwordHash : String) (chunkIndex totalChunks : Int)
    (data : String) : Prop :=
  specInviteCodeFormat pin = false ∨ specHashFormat passwordHash = false ∨
    chunkIndex < 0 ∨ chunkIndex ≥ totalChunks ∨ totalChunks < 1 ∨ totalChunks > 2048 ∨
    data.length > 48 * 1024

/-- The malformedness condition actually checked by `pushChunk` in
`sessionManager.js` (types aside: only ranges and the size cap). -/
def codePushMalformed (chunkIndex totalChunks : Int) (data : String) : Prop :=
  chunkIndex < 0 ∨ chunkIndex ≥ totalChunks ∨ totalChunks < 1 ∨ totalChunks > 2048 ∨
    data.length > 48 * 1024

/-! ## Shared validation helpers (`src/api/_lib/utils.js`) -/

/-- ASCII hexadecimal digit. -/
def hexDigit (c : Char) : Bool :=
  c.isDigit || ('a' ≤ c ∧ c ≤ 'f') || ('A' ≤ c ∧ c ≤ 'F')

/-- Character class of one UUID v4 position (`UUID_V4_RE`, `/i` flag):
dashes at 8/13/18/23, the version nibble `4` at 14, `[89ab]` at 19, hex
digits elsewhere. -/
def uuidSlotOk (i : Nat) (c : Char) : Bool :=
  if i = 8 ∨ i = 13 ∨ i = 18 ∨ i = 23 then c = '-'
  else if i = 14 then c = '4'
  else if i = 19 then c = '8' ∨ c = '9' ∨ c = 'a' ∨ c = 'b' ∨ c = 'A' ∨ c = 'B'
  else hexDigit c

/-- `isUuidV4` from `utils.js`. -/
def isUuidV4 (s : String) : Bool :=
  s.length = 36 && s.toList.enum.all (fun p => uuidSlotOk p.1 p.2)

/-- A base64 body character (`[A-Za-z0-9+/]`). -/
def b64Char (c : Char) : Bool := c.isAlphanum || c = '+' || c = '/'

/-- Whitespace removal performed by `isValidBase64` (`replace(/\s+/g, '')`),
restricted to the common ASCII whitespace characters. -/
def stripWs (s : String) : List Char :=
  s.toList.filter (fun c => ¬ (c = ' ' ∨ c = '\n' ∨ c = '\t' ∨ c = '\r'))

/-- Number of trailing `=` padding characters. -/
def b64Pad (cs : List Char) : Nat := (cs.reverse.takeWhile (· = '=')).length

/-- `isValidBase64` from `utils.js`: non-empty, multiple of 4, body of base64
characters followed by at most two `=`. -/
def isValidBase64 (s : String) : Bool :=
  let cs := stripWs s
  let pad := b64Pad cs
  cs.length ≠ 0 && cs.length % 4 = 0 && pad ≤ 2 &&
    (cs.take (cs.length - pad)).all b64Char

/-- Decoded byte length of a strict base64 string (`strictB64ToBuf(s).length`):
three bytes per quadruple minus the padding. -/
def b64DecLen (s : String) : Option Nat :=
  if isValidBase64 s then
    let cs := stripWs s
    some (cs.length / 4 * 3 - b64Pad cs)
  else none

/-- A WebRTC handshake envelope (`{v, sessionId, nonceB64, ctB64}`); a request
body missing the envelope or carrying a non-object is modelled as `none` at
the call sites. -/
structure Envelope where
  v : Int
  sessionId : String
  nonceB64 : String
  ctB64 : String
deriving Repr, DecidableEq

/-- `validateEnvelope(envelope, expectedSessionId)` from `utils.js`:
`v == 1`, matching session id, 16-char nonce decoding to 12 bytes, ciphertext
decoding to 16 B … 64 KiB; `null` on success. -/
def validateEnvelope (env? : Option Envelope) (expectedSessionId : String) : Option String :=
  match env? with
  | none => some "invalid_envelope"
  | some e =>
    if e.v ≠ 1 then some "invalid_envelope"
    else if e.sessionId ≠ expectedSessionId then some "invalid_envelope"
    else if e.nonceB64.length ≠ 16 then some "invalid_envelope"
    else
      match b64DecLen e.nonceB64, b64DecLen e.ctB64 with
      | some n, some c =>
        if n ≠ 12 then some "invalid_envelope"
        else if c < 16 ∨ c > 64 * 1024 then some "invalid_envelope"
        else none
      | _, _ => some "invalid_envelope"

/-! ## Envelope-session store (`src/api/_lib/store.js`, in-memory backend)

The in-memory backend keeps, per key, the value and an absolute expiry in
milliseconds (`mem.map` / `mem.ttl`).  `memGet` deletes and hides entries
whose expiry is not in the future; `memTtl` reports the remaining whole
seconds (or `-2`).  Keys live in disjoint namespaces `session:`, `pin:`,
`rl:resolve:`, modelled as three separate association lists. -/

/-- One cell of the in-memory store: value plus absolute expiry (ms). -/
structure MemCell (α : Type) where
  val : α
  exp : Nat
deriving Repr, DecidableEq

/-- `memGet`: absent or expired (`exp ≤ now`) entries are deleted and read
as `null`. -/
def memGet {α : Type} (t : Nat) (m : List (String × MemCell α)) (k : String) :
    Option α × List (String × MemCell α) :=
  match mapFind m k with
  | none => (none, m)
  | some c => if c.exp ≤ t then (none, mapDel m k) else (some c.val, m)

/-- `memSet` with a TTL in seconds. -/
def memSet {α : Type} (t : Nat) (m : List (String × MemCell α)) (k : String) (v : α)
    (ttlSec : Nat) : List (String × MemCell α) :=
  mapSet m k ⟨v, t + ttlSec * 1000⟩

/-- `memTtl`: remaining whole seconds, `-2` when absent or already past. -/
def memTtl {α : Type} (t : Nat) (m : List (String × MemCell α)) (k : String) : Int :=
  match mapFind m k with
  | none => -2
  | some c => if t ≤ c.exp then ((c.exp - t) / 1000 : Nat) else -2

/-- An envelope session record (`createSession` in `store.js`; the ISO
timestamps are modelled in milliseconds). -/
structure EnvSession where
  id : String
  pin : String
  saltB64 : String
  createdAt : Nat
  expiresAtMs : Nat
  offerEnvelope : Option Envelope
  answerEnvelope : Option Envelope
  answerDelivered : Bool
deriving Repr, DecidableEq

/-- The store state: the `session:*`, `pin:*` and `rl:resolve:*` namespaces. -/
structure Kv where
  sessions : List (String × MemCell EnvSession)
  pins : List (String × MemCell String)
  rates : List (String × MemCell Nat)
deriving Repr, DecidableEq

/-- The empty store. -/
def emptyKv : Kv := ⟨[], [], []⟩

/-- `SESS_TTL_SEC` from `utils.js`. -/
def SESS_TTL_SEC : Nat := 180

/-- `getSession(id)`. -/
def getSessionKv (t : Nat) (id : String) (st : Kv) : Option EnvSession × Kv :=
  let g := memGet t st.sessions id
  (g.1, { st with sessions := g.2 })

/-- `getSessionTtlSec(id)` (`kvTtl` on the session key). -/
def getSessionTtlSec (t : Nat) (id : String) (st : Kv) : Int :=
  memTtl t st.sessions id

/-- `saveSession(sess, ttlOverrideSec)`: keep the remaining TTL (default) or
use the override, with a 1 s floor. -/
def saveSession (t : Nat) (sess : EnvSession) (ttlOverrideSec : Option Int) (st : Kv) : Kv :=
  let ttl := ttlOverrideSec.getD (memTtl t st.sessions sess.id)
  { st with sessions := memSet t st.sessions sess.id sess (if ttl > 0 then ttl.toNat else 1) }

/-- `deleteSession(id)` (`kvDel` on the session key). -/
def deleteSessionKv (id : String) (st : Kv) : Kv :=
  { st with sessions := mapDel st.sessions id }

/-- The read half of `resolvePinOnce` (`kvGet(pinKey(pin))`), a suspension
point of the handler. -/
def pinRead (t : Nat) (pin : String) (st : Kv) : Option String × Kv :=
  let g := memGet t st.pins pin
  (g.1, { st with pins := g.2 })

/-- The delete half of `resolvePinOnce` (`kvDel(pinKey(pin))`). -/
def pinDel (pin : String) (st : Kv) : Kv :=
  { st with pins := mapDel st.pins pin }

/-- `resolvePinOnce(pin)`: read, then delete, then return the read value. -/
def resolvePinOnce (t : Nat) (pin : String) (st : Kv) : Option String × Kv :=
  let r := pinRead t pin st
  (r.1, pinDel pin r.2)

/-- `setSessionExpireSoon(id, seconds)` (`kvExpire` on the session key). -/
def setSessionExpireSoon (t : Nat) (id : String) (seconds : Nat) (st : Kv) : Nat × Kv :=
  let g := memGet t st.sessions id
  match g.1 with
  | none => (0, { st with sessions := g.2 })
  | some v => (1, { st with sessions := memSet t g.2 id v seconds })

/-- `kvIncr` on the rate key: read (with expiry), add one, write back with
the window TTL. -/
def kvIncrRate (t : Nat) (k : String) (ttlSec : Nat) (st : Kv) : Nat × Kv :=
  let g := memGet t st.rates k
  let v := g.1.getD 0 + 1
  (v, { st with rates := memSet t g.2 k v ttlSec })

/-- `rateAllowResolve(ip)`: at most 30 resolves per 60 s window. -/
def rateAllowResolve (t : Nat) (ip : String) (st : Kv) : Bool × Kv :=
  let r := kvIncrRate t ("rl:resolve:" ++ ip) 60 st
  (decide (r.1 ≤ 30), r.2)

/-- `kvSetNx` on a pin key; the in-memory backend tests bare presence
(`mem.map.has`), without an expiry check. -/
def pinSetNx (t : Nat) (pin sid : String) (ttlSec : Nat) (st : Kv) : Bool × Kv :=
  if (mapFind st.pins pin).isSome then (false, st)
  else (true, { st with pins := memSet t st.pins pin sid ttlSec })

/-- The pin-minting loop of `createSession`: try candidates in order until
`kvSetNx` succeeds. -/
def tryPins (t : Nat) (sid : String) (ttlSec : Nat) : List String → Kv → Option String × Kv
  | [], st => (none, st)
  | p :: rest, st =>
    let r := pinSetNx t p sid ttlSec st
    if r.1 then (some p, r.2) else tryPins t sid ttlSec rest r.2

/-- `createSession(id, saltB64, ttlSec)` from `store.js`; the random pin
candidates are passed explicitly.  `none` models the
`pin_pool_exhausted` exception (no session written). -/
def createSessionKv (t : Nat) (id saltB64 : String) (ttlSec : Nat) (pinCands : List String)
    (st : Kv) : Option EnvSession × Kv :=
  let r := tryPins t id ttlSec pinCands st
  match r.1 with
  | none => (none, r.2)
  | some pin =>
    let sess : EnvSession :=
      { id := id, pin := pin, saltB64 := saltB64, createdAt := t,
        expiresAtMs := t + ttlSec * 1000,
        offerEnvelope := none, answerEnvelope := none, answerDelivered := false }
    (some sess, { r.2 with sessions := memSet t r.2.sessions id sess ttlSec })

/-- An HTTP response of the envelope-session REST surface (status code plus
the body fields the claims mention). -/
structure HttpRes where
  code : Nat
  error : Option String := none
  sessionId : Option String := none
  envelope : Option Envelope := none
deriving Repr, DecidableEq

/-- `getAlive` from `answer.js`/`offer.js`: 404 for a malformed id or an
absent session, 410 when the remaining TTL is not positive. -/
def getAlive (t : Nat) (sid : String) (st : Kv) : Except HttpRes EnvSession × Kv :=
  if ¬ isUuidV4 sid then (.error { code := 404, error := some "session_not_found" }, st)
  else
    let g := getSessionKv t sid st
    match g.1 with
    | none => (.error { code := 404, error := some "session_not_found" }, g.2)
    | some sess =>
      if getSessionTtlSec t sid g.2 ≤ 0 then
        (.error { code := 410, error := some "session_expired" }, g.2)
      else (.ok sess, g.2)

/-- `GET /api/v1/sessions/[sessionId]/answer`: the first successful read
flips `answerDelivered`, saves, and calls `setSessionExpireSoon(id, 1)`. -/
def answerGet (t : Nat) (sid : String) (st : Kv) : HttpRes × Kv :=
  let a := getAlive t sid st
  match a.1 with
  | .error r => (r, a.2)
  | .ok sess =>
    match sess.answerEnvelope with
    | none => ({ code := 404, error := some "answer_not_set" }, a.2)
    | some env =>
      if sess.answerDelivered then ({ code := 200, envelope := some env }, a.2)
      else
        let sess' := { sess with answerDelivered := true }
        let st2 := saveSession t sess' none a.2
        let e := setSessionExpireSoon t sess.id 1 st2
        ({ code := 200, envelope := some env }, e.2)

/-- `POST /api/v1/sessions/[sessionId]/answer`: envelope validation, then
`offer_not_set` / `answer_already_set`, then store the answer. -/
def answerPost (t : Nat) (sid : String) (env? : Option Envelope) (st : Kv) : HttpRes × Kv :=
  let a := getAlive t sid st
  match a.1 with
  | .error r => (r, a.2)
  | .ok sess =>
    match validateEnvelope env? sess.id with
    | some e => ({ code := 400, error := some e }, a.2)
    | none =>
      if sess.offerEnvelope.isNone then ({ code := 409, error := some "offer_not_set" }, a.2)
      else if sess.answerEnvelope.isSome then
        ({ code := 409, error := some "answer_already_set" }, a.2)
      else
        let sess' := { sess with answerEnvelope := env? }
        ({ code := 200 }, saveSession t sess' none a.2)

/-- `GET /api/v1/sessions/[sessionId]/offer`. -/
def offerGet (t : Nat) (sid : String) (st : Kv) : HttpRes × Kv :=
  let a := getAlive t sid st
  match a.1 with
  | .error r => (r, a.2)
  | .ok sess =>
    match sess.offerEnvelope with
    | none => ({ code := 404, error := some "offer_not_set" }, a.2)
    | some env => ({ code := 200, envelope := some env }, a.2)

/-- `POST /api/v1/sessions/[sessionId]/offer`. -/
def offerPost (t : Nat) (sid : String) (env? : Option Envelope) (st : Kv) : HttpRes × Kv :=
  let a := getAlive t sid st
  match a.1 with
  | .error r => (r, a.2)
  | .ok sess =>
    match validateEnvelope env? sess.id with
    | some e => ({ code := 400, error := some e }, a.2)
    | none =>
      if sess.offerEnvelope.isSome then ({ code := 409, error := some "offer_already_set" }, a.2)
      else
        let sess' := { sess with offerEnvelope := env? }
        ({ code := 200 }, saveSession t sess' none a.2)

/-- `DELETE /api/v1/sessions/[sessionId]` over `_lib/store.js`: idempotent,
204 regardless of existence (404 only for a malformed id). -/
def sessionDeleteKv (sid : String) (st : Kv) : HttpRes × Kv :=
  if ¬ isUuidV4 sid then ({ code := 404, error := some "session_not_found" }, st)
  else ({ code := 204 }, deleteSessionKv sid st)

/-- The PIN format gate of `resolve.js` (`/^\d{6}$/`). -/
def pinFormat6 (s : String) : Bool :=
  s.length = 6 && s.toList.all (·.isDigit)

/-- The tail of the resolve handler, after `resolvePinOnce`: 404 when no
session id was read, 410 when the session is gone or its TTL is not
positive, 200 otherwise. -/
def resolveAfterPin (t : Nat) (sid? : Option String) (st : Kv) : HttpRes × Kv :=
  match sid? with
  | none => ({ code := 404, error := some "pin_not_found" }, st)
  | some sid =>
    let g := getSessionKv t sid st
    match g.1 with
    | none => ({ code := 410, error := some "pin_expired" }, g.2)
    | some sess =>
      if getSessionTtlSec t sid g.2 ≤ 0 then ({ code := 410, error := some "pin_expired" }, g.2)
      else ({ code := 200, sessionId := some sess.id }, g.2)

/-- `GET /api/v1/sessions/resolve?pin=…`, written as the sequential
composition of its atomic store operations (format gate, rate check, pin
read, pin delete, session lookup). -/
def resolveHandler (t : Nat) (ip pin : String) (st : Kv) : HttpRes × Kv :=
  if ¬ pinFormat6 pin then ({ code := 404, error := some "pin_not_found" }, st)
  else
    let ra := rateAllowResolve t ip st
    if ¬ ra.1 then ({ code := 429, error := some "rate_limited" }, ra.2)
    else
      let pr := pinRead t pin ra.2
      let st2 := pinDel pin pr.2
      resolveAfterPin t pr.1 st2

/-- One operation of the envelope-session surface, for reachability. -/
inductive EnvOp
  | create (id saltB64 : String) (pinCands : List String)
  | postOffer (sid : String) (env? : Option Envelope)
  | postAnswer (sid : String) (env? : Option Envelope)
  | readOffer (sid : String)
  | readAnswer (sid : String)
  | resolve (ip pin : String)
  | remove (sid : String)

/-- Apply one timed envelope-session operation. -/
def applyEnvOp (st : Kv) : Nat × EnvOp → Kv
  | (t, .create id salt cands) => (createSessionKv t id salt SESS_TTL_SEC cands st).2
  | (t, .postOffer sid env?) => (offerPost t sid env? st).2
  | (t, .postAnswer sid env?) => (answerPost t sid env? st).2
  | (t, .readOffer sid) => (offerGet t sid st).2
  | (t, .readAnswer sid) => (answerGet t sid st).2
  | (t, .resolve ip pin) => (resolveHandler t ip pin st).2
  | (_, .remove sid) => (sessionDeleteKv sid st).2

/-- Run a trace of envelope-session operations from the empty store. -/
def runEnv (ops : List (Nat × EnvOp)) : Kv :=
  ops.foldl applyEnvOp emptyKv

/-! ## Express server variant (sessions map, PIN map)

The self-contained Express server keeps `sessions : Map<id, session>` and
`pinToSession : Map<pin, {sessionId, expiresAt}>` in process memory; session
records carry their own `expiresAt` (ms). -/

/-- A session record of the Express server. -/
structure XSession where
  id : String
  saltB64 : String
  createdAt : Nat
  expiresAt : Nat
  offerEnvelope : Option Envelope
  answerEnvelope : Option Envelope
  answerDelivered : Bool
deriving Repr, DecidableEq

/-- A `pinToSession` entry. -/
structure XPinInfo where
  sessionId : String
  expiresAt : Nat
deriving Repr, DecidableEq

/-- The Express server's in-process state. -/
structure XState where
  sessions : List (String × XSession)
  pinToSession : List (String × XPinInfo)
deriving Repr, DecidableEq

/-- `getAliveSessionOrError`: 404 for malformed id or absent session, 410
when `expiresAt` is not in the future. -/
def xGetAlive (t : Nat) (sid : String) (st : XState) : Except HttpRes XSession :=
  if ¬ isUuidV4 sid then .error { code := 404, error := some "session_not_found" }
  else
    match mapFind st.sessions sid with
    | none => .error { code := 404, error := some "session_not_found" }
    | some sess =>
      if sess.expiresAt ≤ t then .error { code := 410, error := some "session_expired" }
      else .ok sess

/-- `DELETE /v1/sessions/:sessionId` of the Express server: for a well-formed
id, drop the first matching PIN entry and the session, and reply 204 whether
or not they existed. -/
def xDelete (sid : String) (st : XState) : HttpRes × XState :=
  if ¬ isUuidV4 sid then ({ code := 404, error := some "session_not_found" }, st)
  else
    let pins' :=
      match st.pinToSession.find? (fun p => p.2.sessionId = sid) with
      | some p => mapDel st.pinToSession p.1
      | none => st.pinToSession
    ({ code := 204 }, { sessions := mapDel st.sessions sid, pinToSession := pins' })

/-- `GET /v1/sessions/:sessionId/offer` of the Express server. -/
def xGetOffer (t : Nat) (sid : String) (st : XState) : HttpRes :=
  match xGetAlive t sid st with
  | .error r => r
  | .ok sess =>
    match sess.offerEnvelope with
    | none => { code := 404, error := some "offer_not_set" }
    | some env => { code := 200, envelope := some env }

/-- `GET /v1/sessions/:sessionId/answer` of the Express server: the first
successful read flips `answerDelivered` and sets `expiresAt` to the
immediate past (`Date.now() - 1`). -/
def xGetAnswer (t : Nat) (sid : String) (st : XState) : HttpRes × XState :=
  match xGetAlive t sid st with
  | .error r => (r, st)
  | .ok sess =>
    match sess.answerEnvelope with
    | none => ({ code := 404, error := some "answer_not_set" }, st)
    | some env =>
      if sess.answerDelivered then ({ code := 200, envelope := some env }, st)
      else
        let sess' := { sess with answerDelivered := true, expiresAt := t - 1 }
        ({ code := 200, envelope := some env },
          { st with sessions := mapSet st.sessions sid sess' })

/-! ## Legacy DELETE handler (`api/v1/sessions/[sessionId]/index.js` over
`sessionStore.js`) -/

/-- A `sessionStore.js` session record. -/
structure LSession where
  sessionId : String
  pin : Option String
  created : Nat
  expires : Nat
  offer : Option Envelope
  answer : Option Envelope
deriving Repr, DecidableEq

/-- The `sessionStore.js` memory store (session and pin namespaces). -/
structure LStore where
  sessions : List (String × LSession)
  pins : List (String × XPinInfo)
deriving Repr, DecidableEq

/-- The empty legacy store. -/
def emptyLStore : LStore := ⟨[], []⟩

/-- `getSession(sessionId)` from `sessionStore.js`: expiry-on-read removes
the record and its PIN index entry. -/
def lGetSession (t : Nat) (sid : String) (st : LStore) : Option LSession × LStore :=
  match mapFind st.sessions sid with
  | none => (none, st)
  | some sess =>
    if sess.expires < t then
      let pins' := match sess.pin with
        | some p => mapDel st.pins p
        | none => st.pins
      (none, { sessions := mapDel st.sessions sid, pins := pins' })
    else (some sess, st)

/-- `sessionDelete` from the legacy `api/v1/sessions/[sessionId]/index.js`:
405 for a non-DELETE method, 410 when the session is absent, otherwise it
*overwrites* the record with cleared envelopes and replies 200. -/
def legacySessionDelete (t : Nat) (method sid : String) (st : LStore) : HttpRes × LStore :=
  if method ≠ "DELETE" then ({ code := 405 }, st)
  else
    let g := lGetSession t sid st
    match g.1 with
    | none => ({ code := 410, error := some "session_expired" }, g.2)
    | some sess =>
      let sess' := { sess with offer := none, answer := none }
      ({ code := 200 }, { g.2 with sessions := mapSet g.2.sessions sid sess' })

/-- Two resolve handlers for the same PIN, run concurrently by clients at
distinct addresses, interleaved at the handler's own suspension points
(every store operation is an `await`): R1 rate-check, R1 pin-read, R2
rate-check, R2 pin-read, R1 pin-delete, R1 rest, R2 pin-delete, R2 rest.
Each resolver performs exactly the atomic operations of `resolveHandler`
in program order; only the interleaving differs.  Returns both responses. -/
def resolveInterleaved (t : Nat) (ip1 ip2 pin : String) (st : Kv) : HttpRes × HttpRes :=
  let a1 := rateAllowResolve t ip1 st
  let b1 := pinRead t pin a1.2
  let a2 := rateAllowResolve t ip2 b1.2
  let b2 := pinRead t pin a2.2
  let s1 := pinDel pin b2.2
  let r1 := resolveAfterPin t b1.1 s1
  let s2 := pinDel pin r1.2
  let r2 := resolveAfterPin t b2.1 s2
  (r1.1, r2.1)

/-- A fixed envelope-session id (UUID v4) for concrete scenarios. -/
def sidA : String := "11111111-1111-4111-8111-111111111111"

/-- A second envelope-session id for concrete scenarios. -/
def sidB : String := "22222222-2222-4222-8222-222222222222"

/-- A valid envelope for `sidB` (12-byte nonce, 18-byte ciphertext). -/
def envB : Envelope :=
  { v := 1, sessionId := sidB, nonceB64 := "AAAAAAAAAAAAAAAA",
    ctB64 := "AAAAAAAAAAAAAAAAAAAAAAAA" }

/-- Concrete store: one live session reachable through PIN `123456`. -/
def kvWithPin : Kv :=
  { sessions := [(sidA,
      { val := { id := sidA, pin := "123456", saltB64 := "c2FsdA==", createdAt := 0,
                 expiresAtMs := 180000, offerEnvelope := none, answerEnvelope := none,
                 answerDelivered := false }, exp := 180000 })],
    pins := [("123456", { val := sidA, exp := 180000 })],
    rates := [] }

/-- Concrete store: a pin-index entry whose session is gone. -/
def kvOrphanPin : Kv :=
  { sessions := [],
    pins := [("654321", { val := sidA, exp := 180000 })],
    rates := [] }

/-- Concrete store: a live session for `sidB` whose answer is posted but not
yet delivered. -/
def kvAnswerReady : Kv :=
  { sessions := [(sidB,
      { val := { id := sidB, pin := "123456", saltB64 := "c2FsdA==", createdAt := 0,
                 expiresAtMs := 5000, offerEnvelope := some envB,
                 answerEnvelope := some envB, answerDelivered := false }, exp := 5000 })],
    pins := [], rates := [] }

/-- The offer-before-answer invariant of a sessions namespace: a stored
session carries an answer envelope only if it carries an offer envelope. -/
def SessionsInv (m : List (String × MemCell EnvSession)) : Prop :=
  ∀ k p, mapFind m k = some p → p.val.answerEnvelope.isSome = true →
    p.val.offerEnvelope.isSome = true

/-! # Theorems

First the dictionary lemmas, then the claim theorems with their witnesses
and counterexamples. -/

theorem mapFind_nil {κ α : Type} [DecidableEq κ] (k : κ) :
    mapFind ([] : List (κ × α)) k = none := rfl

theorem mapFind_cons {κ α : Type} [DecidableEq κ] (p : κ × α) (m : List (κ × α)) (k : κ) :
    mapFind (p :: m) k = if p.1 = k then some p.2 else mapFind m k := by
  by_cases hp : p.1 = k <;> simp [mapFind, List.find?_cons, hp]

theorem mapFind_mapSet {κ α : Type} [DecidableEq κ] (m : List (κ × α)) (k k' : κ) (v : α) :
    mapFind (mapSet m k v) k' = if k = k' then some v else mapFind m k' := by
  induction m with
  | nil =>
    rw [mapSet, mapFind_cons, mapFind_nil]
  | cons p rest ih =>
    rw [mapSet]
    by_cases hp : p.1 = k
    · rw [if_pos hp, mapFind_cons, mapFind_cons]
      by_cases hk : k = k'
      · simp [hk]
      · have hpk' : ¬ p.1 = k' := by rw [hp]; exact hk
        simp [hk, hpk']
    · rw [if_neg hp, mapFind_cons, mapFind_cons, ih]
      by_cases hp' : p.1 = k'
      · have hk : ¬ k = k' := fun h => hp (by rw [h, hp'])
        simp [hp', hk]
      · simp [hp']

theorem mapFind_mapDel {κ α : Type} [DecidableEq κ] (m : List (κ × α)) (k k' : κ) :
    mapFind (mapDel m k) k' = if k = k' then none else mapFind m k' := by
  induction m with
  | nil => simp [mapDel, mapFind]
  | cons p rest ih =>
    by_cases hpk : p.1 = k
    · have hstep : mapDel (p :: rest) k = mapDel rest k := by simp [mapDel, hpk]
      rw [hstep, ih, mapFind_cons]
      by_cases hk : k = k'
      · simp [hk]
      · have hpk' : ¬ p.1 = k' := by rw [hpk]; exact hk
        simp [hk, hpk']
    · have hstep : mapDel (p :: rest) k = p :: mapDel rest k := by simp [mapDel, hpk]
      rw [hstep, mapFind_cons, mapFind_cons, ih]
      by_cases hp' : p.1 = k'
      · have hk : ¬ k = k' := fun h => hpk (by rw [h, hp'])
        simp [hp', hk]
      · simp [hp']

theorem mapFind_some_mem {κ α : Type} [DecidableEq κ] (m : List (κ × α)) (k : κ) (v : α)
    (h : mapFind m k = some v) : (k, v) ∈ m := by
  induction m with
  | nil => simp [mapFind] at h
  | cons p rest ih =>
    rw [mapFind_cons] at h
    by_cases hp : p.1 = k
    · rw [if_pos hp] at h
      injection h with h2
      have hpv : p = (k, v) := by
        obtain ⟨a, b⟩ := p
        simp only at hp h2
        rw [hp, h2]
    
      rw [hpv]
      exact List.mem_cons_self (k, v) rest
    · rw [if_neg hp] at h
      exact List.mem_cons_of_mem p (ih h)

theorem mem_mapSet {κ α : Type} [DecidableEq κ] (m : List (κ × α)) (k : κ) (v : α) (p : κ × α)
    (h : p ∈ mapSet m k v) : p ∈ m ∨ p = (k, v) := by
  induction m with
  | nil =>
    rw [mapSet] at h
    right
    simpa using h
  | cons q rest ih =>
    rw [mapSet] at h
    by_cases hq : q.1 = k
    · rw [if_pos hq] at h
      rcases List.mem_cons.mp h with h1 | h2
      · right; exact h1
      · left; exact List.mem_cons_of_mem q h2
    · rw [if_neg hq] at h
      rcases List.mem_cons.mp h with h1 | h2
      · left; rw [h1]; exact List.mem_cons_self q rest
      · rcases ih h2 with h3 | h3
        · left; exact List.mem_cons_of_mem q h3
        · right; exact h3

theorem mem_mapDel {κ α : Type} [DecidableEq κ] (m : List (κ × α)) (k : κ) (p : κ × α)
    (h : p ∈ mapDel m k) : p ∈ m :=
  List.mem_of_mem_filter h

theorem contains_iff_mem (l : List Nat) (i : Nat) : l.contains i = true ↔ i ∈ l := by
  simp [List.contains, List.elem_iff]

theorem nodup_bounded_length_le (l : List Nat) (n : Nat) (hnd : l.Nodup)
    (hb : ∀ i ∈ l, i < n) : l.length ≤ n := by
  have hsub : l ⊆ List.range n := fun i hi => List.mem_range.mpr (hb i hi)
  have hle := (List.subperm_of_subset hnd hsub).length_le
  simpa using hle

theorem nodup_bounded_full (l : List Nat) (n : Nat) (hnd : l.Nodup)
    (hb : ∀ i ∈ l, i < n) (hlen : l.length = n) : ∀ i, i < n → i ∈ l := by
  have hsub : l ⊆ List.range n := fun i hi => List.mem_range.mpr (hb i hi)
  have hperm : List.Perm l (List.range n) :=
    (List.subperm_of_subset hnd hsub).perm_of_length_le (by simp [hlen])
  intro i hi
  exact hperm.mem_iff.mpr (List.mem_range.mpr hi)

theorem scanPending_spec (c : List (Nat × String)) (dl : List Nat) :
    ∀ fuel i k v, scanPending c dl i fuel = some (k, v) →
      i ≤ k ∧ k < i + fuel ∧ mapFind c k = some v ∧ dl.contains k = false ∧
      ∀ j, i ≤ j → j < k → (mapFind c j = none ∨ dl.contains j = true) := by
  intro fuel
  induction fuel with
  | zero =>
    intro i k v h
    simp [scanPending] at h
  | succ f ih =>
    intro i k v h
    rw [scanPending] at h
    cases hobj : mapFind c i with
    | some w =>
      simp only [hobj] at h
      by_cases hd : dl.contains i
      · simp only [hd, if_true] at h
        obtain ⟨h1, h1b, h2, h3, h4⟩ := ih (i + 1) k v h
        refine ⟨by omega, by omega, h2, h3, ?_⟩
        intro j hij hjk
        by_cases hji : j = i
        · right; rw [hji]; exact hd
        · exact h4 j (by omega) hjk
      · rw [if_neg hd] at h
        rw [Option.some.injEq, Prod.mk.injEq] at h
        obtain ⟨rfl, rfl⟩ := h
        refine ⟨Nat.le_refl i, by omega, hobj, ?_, ?_⟩
        · revert hd; cases dl.contains i <;> simp
        · intro j hij hjk; omega
    | none =>
      simp only [hobj] at h
      obtain ⟨h1, h1b, h2, h3, h4⟩ := ih (i + 1) k v h
      refine ⟨by omega, by omega, h2, h3, ?_⟩
      intro j hij hjk
      by_cases hji : j = i
      · left; rw [hji]; exact hobj
      · exact h4 j (by omega) hjk

theorem readSess_some (t : Nat) (st : RelayState) (s : RelaySession)
    (h : (readSess t st).1 = some s) : st.sess = some s := by
  unfold readSess at h
  cases hs : st.sess with
  | none => simp [hs] at h
  | some s0 =>
    simp only [hs] at h
    by_cases he : s0.expires < t
    · simp [he] at h
    · simp only [he, if_false, if_neg he] at h
      exact h

theorem readSess_state (t : Nat) (st : RelayState) :
    (readSess t st).2 = st ∨ (readSess t st).2 = { st with sess := none } := by
  unfold readSess
  cases st.sess with
  | none => left; rfl
  | some s0 =>
    by_cases he : s0.expires < t
    · right; simp [he]
    · left; simp [he]

theorem readAck_state (t : Nat) (st : RelayState) :
    (readAck t st).2 = st ∨ (readAck t st).2 = { st with ack := none } := by
  unfold readAck
  cases st.ack with
  | none => left; rfl
  | some a0 =>
    by_cases he : a0.expires < t
    · right; simp [he]
    · left; simp [he]

theorem not_mem_of_contains_false (l : List Nat) (i : Nat)
    (h : ¬ l.contains i = true) : i ∉ l := by
  intro hm
  exact h ((contains_iff_mem l i).mpr hm)

theorem StateInv_empty : StateInv emptyRelay := by
  intro s h
  simp [emptyRelay] at h

theorem StateInv_readSess (t : Nat) (st : RelayState) (h : StateInv st) :
    StateInv (readSess t st).2 := by
  rcases readSess_state t st with he | he <;> rw [he]
  · exact h
  · intro s hs; simp at hs

theorem StateInv_readAck (t : Nat) (st : RelayState) (h : StateInv st) :
    StateInv (readAck t st).2 := by
  rcases readAck_state t st with he | he <;> rw [he]
  · exact h
  · intro s hs
    exact h s (by simpa using hs)

theorem SessInv_of_read (t : Nat) (st : RelayState) (s : RelaySession) (h : StateInv st)
    (hr : (readSess t st).1 = some s) : SessInv s :=
  h s (readSess_some t st s hr)

theorem pushChunk_preserves (t : Nat) (st : RelayState) (pin ph : String)
    (ci tc : Int) (d : String) (h : StateInv st) :
    StateInv (pushChunk t st pin ph ci tc d).2 := by
  unfold pushChunk
  by_cases hval : ci < 0 ∨ ci ≥ tc ∨ tc < 1 ∨ tc > 2048 ∨ d.length > 48 * 1024
  · rw [if_pos hval]
    exact h
  · rw [if_neg hval]
    push_neg at hval
    obtain ⟨hv0, hv1, hv2, hv3, hv4⟩ := hval
    have hrst : StateInv (readSess t st).2 := StateInv_readSess t st h
    cases hr : (readSess t st).1 with
    | none =>
      simp only [hr]
      intro s hs
      simp only [Option.some.injEq] at hs
      rw [← hs]
      refine ⟨by simp, by simp, ?_, by simp, by simp⟩
      intro p hp
      rcases mem_mapSet _ _ _ _ hp with hm | hm
      · simp at hm
      · rw [hm]
        simp only
        omega
    | some sess =>
      have hiv : SessInv sess := SessInv_of_read t st sess h hr
      obtain ⟨i1, i2, i3, i4, i5⟩ := hiv
      simp only [hr]
      by_cases hmis : (sess.totalChunks : Int) ≠ tc
      · rw [if_pos hmis]
        exact hrst
      · rw [if_neg hmis]
        push_neg at hmis
        by_cases hdup : sess.delivered.contains ci.toNat ∨ (mapFind sess.chunks ci.toNat).isSome
        · rw [if_pos hdup]
          exact hrst
        · rw [if_neg hdup]
          push_neg at hdup
          obtain ⟨hnc, hnf⟩ := hdup
          have hnone : mapFind sess.chunks ci.toNat = none :=
            Option.not_isSome_iff_eq_none.mp hnf
          intro s hs
          simp only [Option.some.injEq] at hs
          rw [← hs]
          refine ⟨?_, i2, ?_, i4, ?_⟩
          · intro j hj
            simp only
            rw [mapFind_mapSet]
            by_cases hji : ci.toNat = j
            · exfalso
              rw [← hji] at hj
              exact not_mem_of_contains_false _ _ (by simpa using hnc) hj
            · rw [if_neg hji]
              exact i1 j hj
          · intro p hp
            simp only at hp ⊢
            rcases mem_mapSet _ _ _ _ hp with hm | hm
            · exact i3 p hm
            · rw [hm]
              simp only
              omega
          · intro hc
            simp only at hc
            obtain ⟨hce, hcl⟩ := i5 hc
            exfalso
            have hmem : ci.toNat ∈ sess.delivered :=
              nodup_bounded_full sess.delivered sess.totalChunks i4 i2 hcl ci.toNat (by omega)
            exact not_mem_of_contains_false _ _ (by simpa using hnc) hmem

theorem nextChunk_preserves (t : Nat) (st : RelayState) (h : StateInv st) :
    StateInv (nextChunk t st).2 := by
  unfold nextChunk
  have hrst : StateInv (readSess t st).2 := StateInv_readSess t st h
  cases hr : (readSess t st).1 with
  | none =>
    simp only [hr]
    exact hrst
  | some sess =>
    have hiv : SessInv sess := SessInv_of_read t st sess h hr
    obtain ⟨i1, i2, i3, i4, i5⟩ := hiv
    simp only [hr]
    by_cases hstale : t - sess.lastTouched > CHUNK_TTL_MS
    · rw [if_pos hstale]
      intro s hs
      simp at hs
    · rw [if_neg hstale]
      by_cases hcomp : sess.completed = true
      · simp only [hcomp, if_true]
        have hrack : StateInv (readAck t (readSess t st).2).2 :=
          StateInv_readAck t _ hrst
        cases hra : (readAck t (readSess t st).2).1 with
        | some a =>
          simp only [hra]
          by_cases hack : a.acknowledged = true
          · simp only [hack, if_true]
            intro s hs
            simp at hs
          · simp only [hack, if_false]
            rw [if_neg (by simpa using hack)]
            exact hrack
        | none =>
          simp only [hra]
          exact hrack
      · simp only [hcomp, if_false]
        rw [if_neg (by simpa using hcomp)]
        cases hscan : scanPending sess.chunks sess.delivered 0 sess.totalChunks with
        | some p =>
          obtain ⟨i, data⟩ := p
          simp only [hscan]
          obtain ⟨hs1, hs2, hs3, hs4, hs5⟩ :=
            scanPending_spec sess.chunks sess.delivered sess.totalChunks 0 i data hscan
          intro s hs
          simp only [Option.some.injEq] at hs
          rw [← hs]
          have hilt : i < sess.totalChunks :=
            i3 (i, data) (mapFind_some_mem sess.chunks i data hs3)
          have hnm : i ∉ sess.delivered := by
            apply not_mem_of_contains_false
            rw [hs4]
            simp
          refine ⟨?_, ?_, ?_, ?_, ?_⟩
          · intro j hj
            simp only at hj ⊢
            rw [mapFind_mapDel]
            by_cases hij : i = j
            · rw [if_pos hij]
            · rw [if_neg hij]
              rcases List.mem_append.mp hj with hj1 | hj1
              · exact i1 j hj1
              · exfalso
                simp at hj1
                exact hij hj1.symm
          · intro j hj
            simp only at hj ⊢
            rcases List.mem_append.mp hj with hj1 | hj1
            · exact i2 j hj1
            · simp at hj1
              rw [hj1]
              exact hilt
          · intro p hp
            simp only at hp ⊢
            exact i3 p (mem_mapDel _ _ _ hp)
          · simp only
            simp [List.nodup_append, i4, hnm]
          · intro hc
            simp only at hc
            exact absurd hc (by simpa using hcomp)
        | none =>
          simp only [hscan]
          by_cases hlen : sess.delivered.length = sess.totalChunks
          · simp only [hlen, if_true]
            intro s hs
            simp only [Option.some.injEq] at hs
            rw [← hs]
            exact ⟨by simp [mapFind], i2, by simp, i4, fun _ => ⟨rfl, hlen⟩⟩
          · simp only [hlen, if_false]
            exact hrst

theorem setAcknowledged_preserves (t : Nat) (st : RelayState) (h : StateInv st) :
    StateInv (setAcknowledged t st) := by
  unfold setAcknowledged
  have h1 : StateInv { st with ack := some { acknowledged := true, expires := t + CHUNK_TTL_MS } } := by
    intro s hs
    exact h s (by simpa using hs)
  have h2 := StateInv_readSess t _ h1
  cases hr : (readSess t { st with ack := some { acknowledged := true, expires := t + CHUNK_TTL_MS } }).1 with
  | some sess =>
    have hiv : SessInv sess := SessInv_of_read t _ sess h1 hr
    obtain ⟨i1, i2, i3, i4, i5⟩ := hiv
    simp only [hr]
    intro s hs
    simp only [Option.some.injEq] at hs
    rw [← hs]
    exact ⟨i1, i2, i3, i4, i5⟩
  | none =>
    simp only [hr]
    exact h2

theorem getAcknowledged_preserves (t : Nat) (st : RelayState) (h : StateInv st) :
    StateInv (getAcknowledged t st).2 := by
  unfold getAcknowledged
  have h1 : StateInv (readAck t st).2 := StateInv_readAck t st h
  cases hr : (readAck t st).1 with
  | some a =>
    simp only [hr]
    by_cases hack : a.acknowledged = true
    · simp only [hack, if_true]
      exact h1
    · simp only [hack, if_false]
      rw [if_neg (by simpa using hack)]
      exact StateInv_readSess t _ h1
  | none =>
    simp only [hr]
    exact StateInv_readSess t _ h1

theorem applyRelayOp_preserves (st : RelayState) (p : Nat × RelayOp) (h : StateInv st) :
    StateInv (applyRelayOp st p) := by
  obtain ⟨t, op⟩ := p
  cases op with
  | push pin ph i n d => exact pushChunk_preserves t st pin ph i n d h
  | next => exact nextChunk_preserves t st h
  | setAck => exact setAcknowledged_preserves t st h
  | getAck => exact getAcknowledged_preserves t st h

theorem foldl_relay_preserves (ops : List (Nat × RelayOp)) :
    ∀ st, StateInv st → StateInv (ops.foldl applyRelayOp st) := by
  induction ops with
  | nil => intro st h; exact h
  | cons p rest ih =>
    intro st h
    exact ih _ (applyRelayOp_preserves st p h)

theorem runRelay_inv (ops : List (Nat × RelayOp)) : StateInv (runRelay ops) :=
  foldl_relay_preserves ops emptyRelay StateInv_empty

theorem readSess_some_state (t : Nat) (st : RelayState) (s : RelaySession)
    (h : (readSess t st).1 = some s) : (readSess t st).2 = st := by
  unfold readSess at h ⊢
  cases hs : st.sess with
  | none => simp [hs] at h
  | some s0 =>
    simp only [hs] at h ⊢
    by_cases he : s0.expires < t
    · simp [he] at h
    · simp [he]

theorem readAck_sess (t : Nat) (st : RelayState) : (readAck t st).2.sess = st.sess := by
  rcases readAck_state t st with h | h <;> rw [h]

theorem nextChunk_chunk_some (t : Nat) (st : RelayState) (i n : Nat) (d : String)
    (hc : (nextChunk t st).1.chunk = some (i, n, d)) :
    ∃ sess, (readSess t st).1 = some sess ∧ n = sess.totalChunks ∧
      scanPending sess.chunks sess.delivered 0 sess.totalChunks = some (i, d) := by
  unfold nextChunk at hc
  cases hr : (readSess t st).1 with
  | none =>
    simp only [hr] at hc
    simp at hc
  | some sess =>
    simp only [hr] at hc
    by_cases hstale : t - sess.lastTouched > CHUNK_TTL_MS
    · rw [if_pos hstale] at hc
      simp at hc
    · rw [if_neg hstale] at hc
      by_cases hcomp : sess.completed = true
      · simp only [hcomp, if_true] at hc
        cases hra : (readAck t (readSess t st).2).1 with
        | none =>
          simp only [hra] at hc
          simp at hc
        | some a =>
          simp only [hra] at hc
          by_cases hack : a.acknowledged = true
          · simp only [hack, if_true] at hc
            simp at hc
          · rw [if_neg hack] at hc
            simp at hc
      · simp only [hcomp] at hc
        rw [if_neg (show ¬ (false = true) by decide)] at hc
        cases hscan : scanPending sess.chunks sess.delivered 0 sess.totalChunks with
        | some p =>
          obtain ⟨i', d'⟩ := p
          simp only [hscan] at hc
          simp only [Option.some.injEq, Prod.mk.injEq] at hc
          obtain ⟨h1, h2, h3⟩ := hc
          refine ⟨sess, rfl, h2.symm, ?_⟩
          rw [← h1, ← h3]
          exact hscan
        | none =>
          simp only [hscan] at hc
          by_cases hlen : sess.delivered.length = sess.totalChunks
          · simp only [hlen, if_true] at hc
            simp at hc
          · simp only [hlen, if_false] at hc
            simp at hc

/-- **C1 (counterexample).**  The claim says that when index 1 is pushed
before index 0, `next` returns `waiting` until index 0 arrives.  In the code,
pushing only index 1 of 2 and polling immediately delivers index 1 (the
smallest *currently pending* index), although index 0 was never stored nor
delivered: receiver-observed order is not strictly ascending. -/
theorem c1_counterexample :
    (nextChunk 1 (pushChunk 0 emptyRelay "Ab3Xy9Zk" "h1" 1 2 "C1").2).1.status
        = "chunkAvailable" ∧
      (nextChunk 1 (pushChunk 0 emptyRelay "Ab3Xy9Zk" "h1" 1 2 "C1").2).1.chunk
        = some (1, 2, "C1") ∧
      (pushChunk 0 emptyRelay "Ab3Xy9Zk" "h1" 1 2 "C1").2.sess =
        some { created := 0, lastTouched := 0, expires := 60000, totalChunks := 2,
               chunks := [(1, "C1")], delivered := [], completed := false,
               acknowledged := false } := by
  decide

/-- **C1 (amended).**  `next` delivers the smallest *currently pending*
undelivered index: whenever `next` returns `chunkAvailable` for index `i`,
every index `j < i` is either already delivered or not pending (absent from
`chunks`); a pending index is deliverable even when lower indices have not
arrived yet. -/
theorem c1_next_delivers_least_pending (t : Nat) (st : RelayState) (sess : RelaySession)
    (i n : Nat) (d : String)
    (hs : (readSess t st).1 = some sess)
    (hc : (nextChunk t st).1.chunk = some (i, n, d)) :
    mapFind sess.chunks i = some d ∧ sess.delivered.contains i = false ∧
      n = sess.totalChunks ∧
      ∀ j < i, mapFind sess.chunks j = none ∨ sess.delivered.contains j = true := by
  obtain ⟨sess', hs', hn, hscan⟩ := nextChunk_chunk_some t st i n d hc
  rw [hs] at hs'
  injection hs' with he
  subst he
  obtain ⟨_, _, h3, h4, h5⟩ := scanPending_spec _ _ _ 0 i d hscan
  exact ⟨h3, h4, hn, fun j hj => h5 j (Nat.zero_le j) hj⟩

/-- **C1 (witness).**  The amended theorem applied to the one-chunk-pushed
state: index 1 is delivered, and index 0 is indeed not pending. -/
theorem c1_witness :
    mapFind ([(1, "C1")] : List (Nat × String)) 1 = some "C1" ∧
      ([] : List Nat).contains 1 = false ∧ (2 = 2) ∧
      ∀ j < 1, mapFind ([(1, "C1")] : List (Nat × String)) j = none ∨
        ([] : List Nat).contains j = true :=
  c1_next_delivers_least_pending 1 (pushChunk 0 emptyRelay "Ab3Xy9Zk" "h1" 1 2 "C1").2
    { created := 0, lastTouched := 0, expires := 60000, totalChunks := 2,
      chunks := [(1, "C1")], delivered := [], completed := false, acknowledged := false }
    1 2 "C1" (by decide) (by decide)

/-- **C2.**  `pushChunk` never returns `concurrency_conflict`: its error
vocabulary is exactly `invalid_chunk`, `totalChunks_mismatch`,
`duplicate_chunk` or no error.  The implementation performs a single
read-modify-write with no retry loop, no read-back verification and no
`concurrency_conflict` path, contradicting the documented 5-attempt
optimistic retry loop. -/
theorem c2_push_error_vocabulary (t : Nat) (st : RelayState) (pin ph : String)
    (ci tc : Int) (d : String) :
    (pushChunk t st pin ph ci tc d).1.error ∈
      [none, some "invalid_chunk", some "totalChunks_mismatch", some "duplicate_chunk"] := by
  unfold pushChunk
  by_cases hval : ci < 0 ∨ ci ≥ tc ∨ tc < 1 ∨ tc > 2048 ∨ d.length > 48 * 1024
  · rw [if_pos hval]
    simp
  · rw [if_neg hval]
    cases hr : (readSess t st).1 with
    | none => simp [hr]
    | some sess =>
      simp only [hr]
      by_cases hmis : (sess.totalChunks : Int) ≠ tc
      · rw [if_pos hmis]
        simp
      · rw [if_neg hmis]
        by_cases hdup : sess.delivered.contains ci.toNat ∨ (mapFind sess.chunks ci.toNat).isSome
        · rw [if_pos hdup]
          simp
        · rw [if_neg hdup]
          simp

/-- **C3.**  Every relay state reachable by any sequence of push / next
(and ack) operations satisfies the claimed invariants: `delivered` is
disjoint from the pending-chunk keys, all indices lie in
`[0, totalChunks)`, at most `totalChunks` indices are delivered, and a
completed session holds no pending chunks. -/
theorem c3_relay_invariants (ops : List (Nat × RelayOp)) (s : RelaySession)
    (h : (runRelay ops).sess = some s) : SessClaimInv s := by
  have hinv : SessInv s := runRelay_inv ops s h
  obtain ⟨i1, i2, i3, i4, i5⟩ := hinv
  exact ⟨i1, i2, i3, nodup_bounded_length_le _ _ i4 i2, fun hc => (i5 hc).1⟩

/-- **C3 (witness).**  The invariant evaluated on the state reached by one
push of index 0 out of 2. -/
theorem c3_witness :
    SessClaimInv { created := 0, lastTouched := 0, expires := 60000, totalChunks := 2,
                   chunks := [(0, "C0")], delivered := [], completed := false,
                   acknowledged := false } :=
  c3_relay_invariants [(0, .push "Ab3Xy9Zk" "h1" 0 2 "C0")] _ (by decide)

/-- **C4 (counterexample).**  A push whose invite code is `"x"` (not 8
alphanumerics) and whose password hash is `"h"` (shorter than 16 chars) is
malformed by the claim's definition, yet `pushChunk` accepts it: no error is
returned and a session is created (state does change). -/
theorem c4_counterexample :
    specPushMalformed "x" "h" 0 1 "D" ∧
      (pushChunk 0 emptyRelay "x" "h" 0 1 "D").1.error = none ∧
      (pushChunk 0 emptyRelay "x" "h" 0 1 "D").2.sess.isSome = true :=
  ⟨Or.inl (by decide), by decide, by decide⟩

/-- **C4 (amended).**  `pushChunk` returns `invalid_chunk` with the stored
state unchanged *exactly* when `chunkIndex < 0`, `chunkIndex ≥ totalChunks`,
`totalChunks < 1`, `totalChunks > 2048`, or `|data| > 48 KiB`; the invite-code
and password-hash formats are not checked by push. -/
theorem c4_push_invalid_iff (t : Nat) (st : RelayState) (pin ph : String)
    (ci tc : Int) (d : String) :
    ((pushChunk t st pin ph ci tc d).1.error = some "invalid_chunk" ∧
        (pushChunk t st pin ph ci tc d).2 = st) ↔ codePushMalformed ci tc d := by
  unfold pushChunk codePushMalformed
  by_cases hval : ci < 0 ∨ ci ≥ tc ∨ tc < 1 ∨ tc > 2048 ∨ d.length > 48 * 1024
  · rw [if_pos hval]
    simpa using hval
  · rw [if_neg hval]
    constructor
    · rintro ⟨he, -⟩
      exfalso
      cases hr : (readSess t st).1 with
      | none =>
        simp only [hr] at he
        simp at he
      | some sess =>
        simp only [hr] at he
        by_cases hmis : (sess.totalChunks : Int) ≠ tc
        · rw [if_pos hmis] at he
          exact absurd (by simpa using he) (by decide : ¬ ("totalChunks_mismatch" = "invalid_chunk"))
        · rw [if_neg hmis] at he
          by_cases hdup : sess.delivered.contains ci.toNat ∨ (mapFind sess.chunks ci.toNat).isSome
          · rw [if_pos hdup] at he
            exact absurd (by simpa using he) (by decide : ¬ ("duplicate_chunk" = "invalid_chunk"))
          · rw [if_neg hdup] at he
            simp at he
    · intro hmal
      exact absurd hmal hval

/-- **C4 (witness).**  The amended equivalence evaluated at a push with
`chunkIndex = 3 ≥ totalChunks = 2`. -/
theorem c4_witness :
    (pushChunk 0 emptyRelay "Ab3Xy9Zk" "h1" 3 2 "D").1.error = some "invalid_chunk" ∧
      (pushChunk 0 emptyRelay "Ab3Xy9Zk" "h1" 3 2 "D").2 = emptyRelay :=
  (c4_push_invalid_iff 0 emptyRelay "Ab3Xy9Zk" "h1" 3 2 "D").mpr (Or.inr (Or.inl (by decide)))

/-- **C5 (counterexample).**  Trace: push one chunk at t=0, deliver it at
t=1, observe `done` at t=2 (session completed), `setAck` at t=3 (the ack
record is written with expiry 60003).  The `next` call at t=4 destroys the
session — and simultaneously deletes the ack record, so `ack-status`
(`getAcknowledged`) at t=5 reports `false` although the ack TTL (60003) has
not elapsed, contrary to the claim. -/
theorem c5_counterexample :
    (runRelay [(0, .push "Ab3Xy9Zk" "h1" 0 1 "C0"), (1, .next), (2, .next),
        (3, .setAck)]).ack = some { acknowledged := true, expires := 60003 } ∧
      (nextChunk 4 (runRelay [(0, .push "Ab3Xy9Zk" "h1" 0 1 "C0"), (1, .next), (2, .next),
        (3, .setAck)])).1.status = "done" ∧
      (nextChunk 4 (runRelay [(0, .push "Ab3Xy9Zk" "h1" 0 1 "C0"), (1, .next), (2, .next),
        (3, .setAck)])).2.sess = none ∧
      (getAcknowledged 5 (nextChunk 4 (runRelay [(0, .push "Ab3Xy9Zk" "h1" 0 1 "C0"),
        (1, .next), (2, .next), (3, .setAck)])).2).1 = false ∧
      5 < 60003 := by
  decide

/-- **C5 (amended).**  A `next` call that returns `done` and destroys the
session record (the completed-and-acknowledged path) also deletes the
separately keyed ack record, so `getAck` returns `false` at any later time:
acknowledgment does **not** survive this destruction. -/
theorem c5_destroying_next_clears_ack (t t' : Nat) (st : RelayState)
    (hd : (nextChunk t st).1.status = "done")
    (hs : (nextChunk t st).2.sess = none) :
    (nextChunk t st).2.ack = none ∧
      (getAcknowledged t' (nextChunk t st).2).1 = false := by
  have hboth : (nextChunk t st).2 = { sess := none, ack := none } := by
    unfold nextChunk at hd hs ⊢
    cases hr : (readSess t st).1 with
    | none =>
      simp only [hr] at hd
      exact absurd (by simpa using hd) (by decide : ¬ ("expired" = "done"))
    | some sess =>
      have hsess : st.sess = some sess := readSess_some t st sess hr
      have hstb : (readSess t st).2 = st := readSess_some_state t st sess hr
      simp only [hr] at hd hs ⊢
      by_cases hstale : t - sess.lastTouched > CHUNK_TTL_MS
      · rw [if_pos hstale] at hd
        exact absurd (by simpa using hd) (by decide : ¬ ("expired" = "done"))
      · rw [if_neg hstale] at hd hs ⊢
        by_cases hcomp : sess.completed = true
        · simp only [hcomp, if_true] at hd hs ⊢
          cases hra : (readAck t (readSess t st).2).1 with
          | none =>
            simp only [hra] at hs
            exfalso
            rw [readAck_sess, hstb, hsess] at hs
            simp at hs
          | some a =>
            simp only [hra] at hs ⊢
            by_cases hack : a.acknowledged = true
            · simp [hack]
            · rw [if_neg hack] at hs
              exfalso
              rw [readAck_sess, hstb, hsess] at hs
              simp at hs
        · simp only [hcomp] at hd hs ⊢
          rw [if_neg (show ¬ (false = true) by decide)] at hd hs ⊢
          cases hscan : scanPending sess.chunks sess.delivered 0 sess.totalChunks with
          | some p =>
            obtain ⟨i, data⟩ := p
            simp only [hscan] at hs
            simp at hs
          | none =>
            simp only [hscan] at hd hs ⊢
            by_cases hlen : sess.delivered.length = sess.totalChunks
            · simp only [hlen, if_true] at hs
              simp at hs
            · simp only [hlen, if_false] at hd
              exact absurd (by simpa using hd) (by decide : ¬ ("waiting" = "done"))
  rw [hboth]
  exact ⟨rfl, rfl⟩

/-- **C5 (witness).**  The amended theorem applied to the counterexample
trace. -/
theorem c5_witness :
    (nextChunk 4 (runRelay [(0, .push "Ab3Xy9Zk" "h1" 0 1 "C0"), (1, .next), (2, .next),
        (3, .setAck)])).2.ack = none ∧
      (getAcknowledged 5 (nextChunk 4 (runRelay [(0, .push "Ab3Xy9Zk" "h1" 0 1 "C0"),
        (1, .next), (2, .next), (3, .setAck)])).2).1 = false :=
  c5_destroying_next_clears_ack 4 5 _ (by decide) (by decide)

theorem memGet_of_mapFind_none {α : Type} (t : Nat) (m : List (String × MemCell α))
    (k : String) (h : mapFind m k = none) : memGet t m k = (none, m) := by
  unfold memGet
  rw [h]

theorem memGet_live {α : Type} (t : Nat) (m : List (String × MemCell α)) (k : String)
    (v : α) (e : Nat) (hf : mapFind m k = some ⟨v, e⟩) (hl : t < e) :
    memGet t m k = (some v, m) := by
  unfold memGet
  simp only [hf]
  rw [if_neg (by omega : ¬ e ≤ t)]

theorem memGet_some_state {α : Type} (t : Nat) (m : List (String × MemCell α)) (k : String)
    (v : α) (h : (memGet t m k).1 = some v) : (memGet t m k).2 = m := by
  unfold memGet at h ⊢
  cases hf : mapFind m k with
  | none => simp [hf]
  | some c =>
    simp only [hf] at h ⊢
    by_cases he : c.exp ≤ t
    · simp [he] at h
    · simp [he]

theorem rateAllowResolve_pins (t : Nat) (ip : String) (st : Kv) :
    (rateAllowResolve t ip st).2.pins = st.pins := rfl

theorem rateAllowResolve_sessions (t : Nat) (ip : String) (st : Kv) :
    (rateAllowResolve t ip st).2.sessions = st.sessions := rfl

theorem pinRead_sessions (t : Nat) (pin : String) (st : Kv) :
    (pinRead t pin st).2.sessions = st.sessions := rfl

theorem pinDel_sessions (pin : String) (st : Kv) :
    (pinDel pin st).sessions = st.sessions := rfl

theorem pinDel_pins (pin : String) (st : Kv) :
    (pinDel pin st).pins = mapDel st.pins pin := rfl

theorem resolveAfterPin_pins (t : Nat) (s : Option String) (st : Kv) :
    (resolveAfterPin t s st).2.pins = st.pins := by
  unfold resolveAfterPin getSessionKv
  cases s with
  | none => rfl
  | some sid =>
    cases hg : (memGet t st.sessions sid).1 with
    | none => simp only [hg]
    | some sess =>
      simp only [hg]
      by_cases ht : getSessionTtlSec t sid { st with sessions := (memGet t st.sessions sid).2 } ≤ 0
      · rw [if_pos ht]
      · rw [if_neg ht]

theorem resolveHandler_pin_consumed (t : Nat) (ip pin : String) (st : Kv)
    (hfmt : pinFormat6 pin = true)
    (hnr : (resolveHandler t ip pin st).1.error ≠ some "rate_limited") :
    mapFind (resolveHandler t ip pin st).2.pins pin = none := by
  unfold resolveHandler at hnr ⊢
  rw [if_neg (by simp [hfmt])] at hnr ⊢
  by_cases hra : (rateAllowResolve t ip st).1 = true
  · rw [if_neg (by simp [hra])]
    rw [resolveAfterPin_pins, pinDel_pins, mapFind_mapDel, if_pos rfl]
  · rw [if_pos (by simpa using hra)] at hnr
    exact absurd rfl hnr

theorem resolve_pin_absent (t : Nat) (ip pin : String) (st : Kv)
    (habs : mapFind st.pins pin = none) :
    (resolveHandler t ip pin st).1.error = some "pin_not_found" ∨
      (resolveHandler t ip pin st).1.error = some "rate_limited" := by
  unfold resolveHandler
  by_cases hfmt : pinFormat6 pin = true
  · rw [if_neg (by simp [hfmt])]
    by_cases hra : (rateAllowResolve t ip st).1 = true
    · rw [if_neg (by simp [hra])]
      left
      have hp : pinRead t pin (rateAllowResolve t ip st).2
          = (none, (rateAllowResolve t ip st).2) := by
        unfold pinRead
        rw [show (memGet t (rateAllowResolve t ip st).2.pins pin)
              = (none, (rateAllowResolve t ip st).2.pins) from
            memGet_of_mapFind_none t _ pin (by rw [rateAllowResolve_pins]; exact habs)]
      rw [hp]
      rfl
    · rw [if_pos (by simpa using hra)]
      right
      rfl
  · rw [if_pos (by simpa using hfmt)]
    left
    rfl

/-- The resolve handler, when the format gate and the rate check pass, is
exactly the sequential composition of its atomic store operations:
rate-increment, pin read, pin delete, session lookup. -/
theorem resolveHandler_composed (t : Nat) (ip pin : String) (st : Kv)
    (hfmt : pinFormat6 pin = true)
    (hra : (rateAllowResolve t ip st).1 = true) :
    resolveHandler t ip pin st =
      resolveAfterPin t (pinRead t pin (rateAllowResolve t ip st).2).1
        (pinDel pin (pinRead t pin (rateAllowResolve t ip st).2).2) := by
  unfold resolveHandler
  rw [if_neg (by simp [hfmt]), if_neg (by simp [hra])]

/-- **C6 (counterexample).**  `resolvePinOnce` is a read *followed by* a
delete, not an atomic read-and-delete: two resolvers interleaved at the
handler's own await points (R1 read, R2 read, R1 delete, R2 delete) both
receive the session id with status 200 — more than one resolver can see a
given PIN. -/
theorem c6_counterexample :
    (resolveInterleaved 0 "1.1.1.1" "2.2.2.2" "123456" kvWithPin).1.code = 200 ∧
      (resolveInterleaved 0 "1.1.1.1" "2.2.2.2" "123456" kvWithPin).1.sessionId = some sidA ∧
      (resolveInterleaved 0 "1.1.1.1" "2.2.2.2" "123456" kvWithPin).2.code = 200 ∧
      (resolveInterleaved 0 "1.1.1.1" "2.2.2.2" "123456" kvWithPin).2.sessionId = some sidA := by
  decide

/-- **C6 (amended).**  For *sequential* (non-overlapping) resolves the claim
holds: a resolve of a well-formed PIN that is not rate-limited consumes the
PIN-index record, so every later resolve of the same PIN returns
`pin_not_found` (or `rate_limited`); in particular at most one sequential
resolver ever receives the session id. -/
theorem c6_sequential_one_shot (t1 t2 : Nat) (ip1 ip2 pin : String) (st : Kv)
    (hfmt : pinFormat6 pin = true)
    (hnr : (resolveHandler t1 ip1 pin st).1.error ≠ some "rate_limited") :
    (resolveHandler t2 ip2 pin (resolveHandler t1 ip1 pin st).2).1.error
        = some "pin_not_found" ∨
      (resolveHandler t2 ip2 pin (resolveHandler t1 ip1 pin st).2).1.error
        = some "rate_limited" :=
  resolve_pin_absent t2 ip2 pin _ (resolveHandler_pin_consumed t1 ip1 pin st hfmt hnr)

/-- **C6 (witness).**  The amended theorem on the concrete store: the second
sequential resolve of PIN `123456` reports `pin_not_found`. -/
theorem c6_witness :
    (resolveHandler 1 "2.2.2.2" "123456" (resolveHandler 0 "1.1.1.1" "123456" kvWithPin).2).1.error
        = some "pin_not_found" ∨
      (resolveHandler 1 "2.2.2.2" "123456" (resolveHandler 0 "1.1.1.1" "123456" kvWithPin).2).1.error
        = some "rate_limited" :=
  c6_sequential_one_shot 0 1 "1.1.1.1" "2.2.2.2" "123456" kvWithPin (by decide) (by decide)

/-- **C10.**  A resolve of a PIN whose index record is live but whose session
is absent or stale returns 410 `pin_expired` and still deletes the PIN-index
record, so the PIN is consumed even though resolution failed: any later
resolve of that PIN returns `pin_not_found` (or `rate_limited`). -/
theorem c10_failed_resolve_consumes_pin (t t' : Nat) (ip ip' pin sid : String)
    (e : Nat) (st : Kv)
    (hfmt : pinFormat6 pin = true)
    (hra : (rateAllowResolve t ip st).1 = true)
    (hpin : mapFind st.pins pin = some { val := sid, exp := e })
    (hlive : t < e)
    (hdead : (memGet t st.sessions sid).1 = none ∨ memTtl t st.sessions sid ≤ 0) :
    (resolveHandler t ip pin st).1.code = 410 ∧
      (resolveHandler t ip pin st).1.error = some "pin_expired" ∧
      mapFind (resolveHandler t ip pin st).2.pins pin = none ∧
      ((resolveHandler t' ip' pin (resolveHandler t ip pin st).2).1.error
          = some "pin_not_found" ∨
        (resolveHandler t' ip' pin (resolveHandler t ip pin st).2).1.error
          = some "rate_limited") := by
  have hp : (pinRead t pin (rateAllowResolve t ip st).2).1 = some sid := by
    unfold pinRead
    rw [show memGet t (rateAllowResolve t ip st).2.pins pin
          = (some sid, (rateAllowResolve t ip st).2.pins) from
        memGet_live t _ pin sid e (by rw [rateAllowResolve_pins]; exact hpin) hlive]
  have hss : (pinDel pin (pinRead t pin (rateAllowResolve t ip st).2).2).sessions
      = st.sessions := by
    rw [pinDel_sessions, pinRead_sessions, rateAllowResolve_sessions]
  have hresp : (resolveHandler t ip pin st).1
      = { code := 410, error := some "pin_expired" } := by
    rw [resolveHandler_composed t ip pin st hfmt hra]
    unfold resolveAfterPin getSessionKv
    simp only [hp, hss]
    rcases hdead with hd | hd
    · cases hg : (memGet t st.sessions sid).1 with
      | none => simp only [hg]
      | some sess => rw [hg] at hd; simp at hd
    · cases hg : (memGet t st.sessions sid).1 with
      | none => simp only [hg]
      | some sess =>
        simp only [hg]
        have hst2 : (memGet t st.sessions sid).2 = st.sessions :=
          memGet_some_state t st.sessions sid sess hg
        rw [if_pos (by
          unfold getSessionTtlSec
          simp only [hst2]
          exact hd)]
  have hcons : mapFind (resolveHandler t ip pin st).2.pins pin = none :=
    resolveHandler_pin_consumed t ip pin st hfmt (by rw [hresp]; simp)
  exact ⟨by rw [hresp], by rw [hresp], hcons, resolve_pin_absent t' ip' pin _ hcons⟩

/-- **C10 (witness).**  Resolving PIN `654321`, whose index entry points at a
session that does not exist, yields `pin_expired` and consumes the PIN. -/
theorem c10_witness :
    (resolveHandler 0 "1.1.1.1" "654321" kvOrphanPin).1.code = 410 ∧
      (resolveHandler 0 "1.1.1.1" "654321" kvOrphanPin).1.error = some "pin_expired" ∧
      mapFind (resolveHandler 0 "1.1.1.1" "654321" kvOrphanPin).2.pins "654321" = none ∧
      ((resolveHandler 1 "2.2.2.2" "654321" (resolveHandler 0 "1.1.1.1" "654321" kvOrphanPin).2).1.error
          = some "pin_not_found" ∨
        (resolveHandler 1 "2.2.2.2" "654321" (resolveHandler 0 "1.1.1.1" "654321" kvOrphanPin).2).1.error
          = some "rate_limited") :=
  c10_failed_resolve_consumes_pin 0 1 "1.1.1.1" "2.2.2.2" "654321" sidA 180000 kvOrphanPin
    (by decide) (by decide) (by decide) (by decide) (Or.inl (by decide))

theorem memTtl_of_mapFind {α : Type} (t : Nat) (m : List (String × MemCell α)) (k : String)
    (v : α) (e : Nat) (hf : mapFind m k = some { val := v, exp := e }) :
    memTtl t m k = if t ≤ e then (((e - t) / 1000 : Nat) : Int) else -2 := by
  unfold memTtl
  simp only [hf]

theorem getAlive_of_live (t : Nat) (sid : String) (st : Kv) (sess : EnvSession) (exp : Nat)
    (hu : isUuidV4 sid = true)
    (hf : mapFind st.sessions sid = some { val := sess, exp := exp })
    (halive : t + 1000 ≤ exp) :
    getAlive t sid st = (.ok sess, st) := by
  unfold getAlive
  rw [if_neg (by simp [hu])]
  unfold getSessionKv
  have hm : memGet t st.sessions sid = (some sess, st.sessions) :=
    memGet_live t st.sessions sid sess exp hf (by omega)
  simp only [hm]
  unfold getSessionTtlSec
  rw [memTtl_of_mapFind t _ sid sess exp hf]
  rw [if_pos (by omega : t ≤ exp)]
  rw [if_neg (by omega : ¬ ((((exp - t) / 1000 : Nat) : Int) ≤ 0))]

theorem answerGet_delivery (t : Nat) (sid : String) (st : Kv) (sess : EnvSession)
    (exp : Nat) (env : Envelope)
    (hu : isUuidV4 sid = true)
    (hf : mapFind st.sessions sid = some { val := sess, exp := exp })
    (halive : t + 1000 ≤ exp)
    (hid : sess.id = sid)
    (henv : sess.answerEnvelope = some env)
    (hnd : sess.answerDelivered = false) :
    (answerGet t sid st).1 = { code := 200, envelope := some env } ∧
      mapFind (answerGet t sid st).2.sessions sid
        = some { val := { sess with answerDelivered := true }, exp := t + 1000 } := by
  have hga := getAlive_of_live t sid st sess exp hu hf halive
  have hk : 1 ≤ (exp - t) / 1000 := by omega
  have hrec : ({ sess with answerEnvelope := some env, answerDelivered := true } : EnvSession) = { sess with answerDelivered := true } := by rw [← henv]
  unfold answerGet
  simp only [hga, henv, hnd]
  rw [if_neg (by decide : ¬ (false = true))]
  rw [hrec]
  have hsv : saveSession t { sess with answerDelivered := true } none st = { st with sessions := mapSet st.sessions sid { val := { sess with answerDelivered := true }, exp := t + (exp - t) / 1000 * 1000 } } := by
    unfold saveSession
    have hid' : ({ sess with answerDelivered := true } : EnvSession).id = sid := hid
    rw [hid']
    rw [memTtl_of_mapFind t _ sid sess exp hf]
    rw [if_pos (by omega : t ≤ exp)]
    simp only [Option.getD_none]
    rw [if_pos (by omega : (0 : Int) < (((exp - t) / 1000 : Nat) : Int))]
    unfold memSet
    simp only [Int.toNat_natCast]
  rw [hsv]
  have hm2 : memGet t (mapSet st.sessions sid { val := { sess with answerDelivered := true }, exp := t + (exp - t) / 1000 * 1000 }) sess.id = (some { sess with answerDelivered := true }, mapSet st.sessions sid { val := { sess with answerDelivered := true }, exp := t + (exp - t) / 1000 * 1000 }) := by
    refine memGet_live t _ sess.id _ (t + (exp - t) / 1000 * 1000) ?_ (by omega)
    rw [mapFind_mapSet, if_pos hid.symm]
  have hexp : setSessionExpireSoon t sess.id 1 { st with sessions := mapSet st.sessions sid { val := { sess with answerDelivered := true }, exp := t + (exp - t) / 1000 * 1000 } } = (1, { st with sessions := mapSet (mapSet st.sessions sid { val := { sess with answerDelivered := true }, exp := t + (exp - t) / 1000 * 1000 }) sess.id { val := { sess with answerDelivered := true }, exp := t + 1000 } }) := by
    unfold setSessionExpireSoon
    simp only [hm2]
    unfold memSet
    rfl
  rw [hexp]
  constructor
  · rfl
  · simp only
    rw [mapFind_mapSet, if_pos hid]

theorem answerGet_of_getAlive_error (t : Nat) (sid : String) (st : Kv) (r : HttpRes)
    (h : (getAlive t sid st).1 = .error r) : (answerGet t sid st).1 = r := by
  unfold answerGet
  simp only [h]

/-- **C7 (counterexample).**  The first successful GET of the answer does
*not* move `expiresAt` to the immediate past: it re-keys the session with a
1-second TTL (`setSessionExpireSoon(id, 1)`), so a second GET at the same
millisecond still returns the envelope — more than one GET of the answer can
succeed. -/
theorem c7_counterexample :
    (answerGet 0 sidB kvAnswerReady).1.code = 200 ∧
      (answerGet 0 sidB (answerGet 0 sidB kvAnswerReady).2).1.code = 200 ∧
      (answerGet 0 sidB (answerGet 0 sidB kvAnswerReady).2).1.envelope = some envB ∧
      mapFind (answerGet 0 sidB kvAnswerReady).2.sessions sidB
        = some { val := { id := sidB, pin := "123456", saltB64 := "c2FsdA==", createdAt := 0, expiresAtMs := 5000, offerEnvelope := some envB, answerEnvelope := some envB, answerDelivered := true }, exp := 1000 } := by
  decide

/-- **C7 (amended).**  The first successful GET of the answer flips
`answerDelivered` and sets the session to expire one second later (not in
the past).  Any GET strictly later (1–999 ms after, in the in-memory
backend) finds the TTL non-positive and gets 410 `session_expired`; only
same-instant repeats can still fetch the envelope. -/
theorem c7_answer_grace_window (t δ : Nat) (sid : String) (st : Kv) (sess : EnvSession)
    (exp : Nat) (env : Envelope)
    (hu : isUuidV4 sid = true)
    (hf : mapFind st.sessions sid = some { val := sess, exp := exp })
    (halive : t + 1000 ≤ exp)
    (hid : sess.id = sid)
    (henv : sess.answerEnvelope = some env)
    (hnd : sess.answerDelivered = false)
    (hd1 : 1 ≤ δ) (hd2 : δ ≤ 999) :
    (answerGet t sid st).1 = { code := 200, envelope := some env } ∧
      (answerGet (t + δ) sid (answerGet t sid st).2).1
        = { code := 410, error := some "session_expired" } := by
  obtain ⟨h1, h2⟩ := answerGet_delivery t sid st sess exp env hu hf halive hid henv hnd
  refine ⟨h1, ?_⟩
  have hga2 : getAlive (t + δ) sid (answerGet t sid st).2
      = (.error { code := 410, error := some "session_expired" },
         (answerGet t sid st).2) := by
    unfold getAlive
    rw [if_neg (by simp [hu])]
    unfold getSessionKv
    have hm : memGet (t + δ) (answerGet t sid st).2.sessions sid
        = (some { sess with answerDelivered := true }, (answerGet t sid st).2.sessions) :=
      memGet_live (t + δ) _ sid _ (t + 1000) h2 (by omega)
    simp only [hm]
    unfold getSessionTtlSec
    rw [memTtl_of_mapFind (t + δ) _ sid _ (t + 1000) h2]
    rw [if_pos (by omega : t + δ ≤ t + 1000)]
    rw [if_pos (by omega : (((t + 1000 - (t + δ)) / 1000 : Nat) : Int) ≤ 0)]
  exact answerGet_of_getAlive_error (t + δ) sid (answerGet t sid st).2 _ (by rw [hga2])

/-- **C7 (witness).**  The amended theorem on the concrete store: the GET at
t = 0 succeeds, the GET at t = 1 ms gets 410 `session_expired`. -/
theorem c7_witness :
    (answerGet 0 sidB kvAnswerReady).1 = { code := 200, envelope := some envB } ∧
      (answerGet 1 sidB (answerGet 0 sidB kvAnswerReady).2).1
        = { code := 410, error := some "session_expired" } :=
  c7_answer_grace_window 0 1 sidB kvAnswerReady
    { id := sidB, pin := "123456", saltB64 := "c2FsdA==", createdAt := 0, expiresAtMs := 5000, offerEnvelope := some envB, answerEnvelope := some envB, answerDelivered := false }
    5000 envB (by decide) (by decide) (by decide) (by decide) (by decide) (by decide)
    (by decide) (by decide)

theorem SessionsInv_mapDel (m : List (String × MemCell EnvSession)) (k : String)
    (h : SessionsInv m) : SessionsInv (mapDel m k) := by
  intro k' p hf
  rw [mapFind_mapDel] at hf
  by_cases hk : k = k'
  · rw [if_pos hk] at hf
    cases hf
  · rw [if_neg hk] at hf
    exact h k' p hf

theorem SessionsInv_mapSet (m : List (String × MemCell EnvSession)) (k : String)
    (c : MemCell EnvSession) (h : SessionsInv m)
    (hc : c.val.answerEnvelope.isSome = true → c.val.offerEnvelope.isSome = true) :
    SessionsInv (mapSet m k c) := by
  intro k' p hf
  rw [mapFind_mapSet] at hf
  by_cases hk : k = k'
  · rw [if_pos hk] at hf
    injection hf with h2
    rw [← h2]
    exact hc
  · rw [if_neg hk] at hf
    exact h k' p hf

theorem memGet_state_cases {α : Type} (t : Nat) (m : List (String × MemCell α)) (k : String) :
    (memGet t m k).2 = m ∨ (memGet t m k).2 = mapDel m k := by
  unfold memGet
  cases hf : mapFind m k with
  | none => simp [hf]
  | some c =>
    simp only [hf]
    by_cases he : c.exp ≤ t
    · rw [if_pos he]; right; rfl
    · rw [if_neg he]; left; rfl

theorem memGet_some_mapFind {α : Type} (t : Nat) (m : List (String × MemCell α)) (k : String)
    (v : α) (h : (memGet t m k).1 = some v) : ∃ e, mapFind m k = some { val := v, exp := e } := by
  unfold memGet at h
  cases hf : mapFind m k with
  | none => simp only [hf] at h; cases h
  | some c =>
    simp only [hf] at h
    by_cases he : c.exp ≤ t
    · rw [if_pos he] at h; cases h
    · rw [if_neg he] at h
      injection h with h2
      obtain ⟨cv, ce⟩ := c
      simp only at h2
      refine ⟨ce, ?_⟩
      rw [← h2]

theorem getAlive_sessions (t : Nat) (sid : String) (st : Kv) :
    (getAlive t sid st).2.sessions = st.sessions ∨
      (getAlive t sid st).2.sessions = mapDel st.sessions sid := by
  unfold getAlive getSessionKv
  by_cases hu : isUuidV4 sid = true
  · rw [if_neg (by simp [hu])]
    cases hg : (memGet t st.sessions sid).1 with
    | none =>
      simp only [hg]
      rcases memGet_state_cases t st.sessions sid with hc | hc <;> rw [hc]
      · left; rfl
      · right; rfl
    | some sess =>
      simp only [hg]
      have h2 := memGet_some_state t st.sessions sid sess hg
      by_cases ht : getSessionTtlSec t sid { st with sessions := (memGet t st.sessions sid).2 } ≤ 0
      · rw [if_pos ht]
        left
        simp [h2]
      · rw [if_neg ht]
        left
        simp [h2]
  · rw [if_pos (by simpa using hu)]
    left
    rfl

theorem getAlive_ok (t : Nat) (sid : String) (st : Kv) (sess : EnvSession)
    (h : (getAlive t sid st).1 = .ok sess) :
    (getAlive t sid st).2 = st ∧ ∃ e, mapFind st.sessions sid = some { val := sess, exp := e } := by
  unfold getAlive getSessionKv at h ⊢
  by_cases hu : isUuidV4 sid = true
  · rw [if_neg (by simp [hu])] at h ⊢
    cases hg : (memGet t st.sessions sid).1 with
    | none =>
      simp only [hg] at h
      cases h
    | some v =>
      simp only [hg] at h ⊢
      have h2 := memGet_some_state t st.sessions sid v hg
      by_cases ht : getSessionTtlSec t sid { st with sessions := (memGet t st.sessions sid).2 } ≤ 0
      · rw [if_pos ht] at h
        cases h
      · rw [if_neg ht] at h ⊢
        injection h with h3
        subst h3
        refine ⟨by simp [h2], ?_⟩
        obtain ⟨e, hf⟩ := memGet_some_mapFind t st.sessions sid v hg
        exact ⟨e, hf⟩
  · rw [if_pos (by simpa using hu)] at h
    cases h

theorem saveSession_sessions_inv (t : Nat) (sess : EnvSession) (o : Option Int) (st : Kv)
    (h : SessionsInv st.sessions)
    (hc : sess.answerEnvelope.isSome = true → sess.offerEnvelope.isSome = true) :
    SessionsInv (saveSession t sess o st).sessions := by
  unfold saveSession memSet
  exact SessionsInv_mapSet _ _ _ h hc

theorem setSessionExpireSoon_inv (t : Nat) (id : String) (s : Nat) (st : Kv)
    (h : SessionsInv st.sessions) :
    SessionsInv (setSessionExpireSoon t id s st).2.sessions := by
  unfold setSessionExpireSoon
  cases hg : (memGet t st.sessions id).1 with
  | none =>
    simp only [hg]
    rcases memGet_state_cases t st.sessions id with hc | hc <;> simp only [hc]
    · exact h
    · exact SessionsInv_mapDel _ _ h
  | some v =>
    simp only [hg]
    obtain ⟨e, hf⟩ := memGet_some_mapFind t st.sessions id v hg
    rw [memGet_some_state t st.sessions id v hg]
    unfold memSet
    exact SessionsInv_mapSet _ _ _ h (fun ha => h id { val := v, exp := e } hf ha)

theorem validateEnvelope_none_isSome (env? : Option Envelope) (x : String)
    (h : validateEnvelope env? x = none) : env?.isSome = true := by
  cases env? with
  | none => simp [validateEnvelope] at h
  | some e => rfl

theorem tryPins_sessions (t : Nat) (sid : String) (ttl : Nat) (cands : List String) :
    ∀ st : Kv, (tryPins t sid ttl cands st).2.sessions = st.sessions := by
  induction cands with
  | nil => intro st; rfl
  | cons p rest ih =>
    intro st
    unfold tryPins pinSetNx
    by_cases hp : (mapFind st.pins p).isSome = true
    · rw [if_pos hp]
      simp only [if_false]
      exact ih st
    · rw [if_neg hp]
      simp

theorem createSessionKv_inv (t : Nat) (id salt : String) (ttl : Nat) (cands : List String)
    (st : Kv) (h : SessionsInv st.sessions) :
    SessionsInv (createSessionKv t id salt ttl cands st).2.sessions := by
  unfold createSessionKv
  cases hp : (tryPins t id ttl cands st).1 with
  | none =>
    simp only [hp]
    rw [tryPins_sessions]
    exact h
  | some pin =>
    simp only [hp]
    unfold memSet
    apply SessionsInv_mapSet
    · rw [tryPins_sessions]
      exact h
    · intro ha
      cases ha

theorem offerPost_inv (t : Nat) (sid : String) (env? : Option Envelope) (st : Kv)
    (h : SessionsInv st.sessions) :
    SessionsInv (offerPost t sid env? st).2.sessions := by
  unfold offerPost
  cases hga : (getAlive t sid st).1 with
  | error r =>
    simp only [hga]
    rcases getAlive_sessions t sid st with hc | hc <;> rw [hc]
    · exact h
    · exact SessionsInv_mapDel _ _ h
  | ok sess =>
    obtain ⟨hst, e, hf⟩ := getAlive_ok t sid st sess hga
    simp only [hga]
    cases hv : validateEnvelope env? sess.id with
    | some err =>
      simp only [hv]
      rw [hst]
      exact h
    | none =>
      simp only [hv]
      by_cases ho : sess.offerEnvelope.isSome = true
      · rw [if_pos ho, hst]
        exact h
      · rw [if_neg ho, hst]
        apply saveSession_sessions_inv
        · exact h
        · intro _
          simp only
          exact validateEnvelope_none_isSome env? sess.id hv

theorem answerPost_inv (t : Nat) (sid : String) (env? : Option Envelope) (st : Kv)
    (h : SessionsInv st.sessions) :
    SessionsInv (answerPost t sid env? st).2.sessions := by
  unfold answerPost
  cases hga : (getAlive t sid st).1 with
  | error r =>
    simp only [hga]
    rcases getAlive_sessions t sid st with hc | hc <;> rw [hc]
    · exact h
    · exact SessionsInv_mapDel _ _ h
  | ok sess =>
    obtain ⟨hst, e, hf⟩ := getAlive_ok t sid st sess hga
    simp only [hga]
    cases hv : validateEnvelope env? sess.id with
    | some err =>
      simp only [hv]
      rw [hst]
      exact h
    | none =>
      simp only [hv]
      by_cases ho : sess.offerEnvelope.isNone = true
      · rw [if_pos ho, hst]
        exact h
      · rw [if_neg ho]
        by_cases ha : sess.answerEnvelope.isSome = true
        · rw [if_pos ha, hst]
          exact h
        · rw [if_neg ha, hst]
          apply saveSession_sessions_inv
          · exact h
          · intro _
            simp only
            cases hoe : sess.offerEnvelope with
            | none => rw [hoe] at ho; simp at ho
            | some o => rfl

theorem answerGet_inv (t : Nat) (sid : String) (st : Kv) (h : SessionsInv st.sessions) :
    SessionsInv (answerGet t sid st).2.sessions := by
  unfold answerGet
  cases hga : (getAlive t sid st).1 with
  | error r =>
    simp only [hga]
    rcases getAlive_sessions t sid st with hc | hc <;> rw [hc]
    · exact h
    · exact SessionsInv_mapDel _ _ h
  | ok sess =>
    obtain ⟨hst, e, hf⟩ := getAlive_ok t sid st sess hga
    simp only [hga]
    cases ha : sess.answerEnvelope with
    | none =>
      simp only [ha]
      rw [hst]
      exact h
    | some env =>
      simp only [ha]
      by_cases hnd : sess.answerDelivered = true
      · rw [if_pos hnd, hst]
        exact h
      · rw [if_neg hnd, hst]
        apply setSessionExpireSoon_inv
        apply saveSession_sessions_inv
        · exact h
        · intro _
          simp only
          exact h sid { val := sess, exp := e } hf (by rw [ha]; rfl)

theorem offerGet_inv (t : Nat) (sid : String) (st : Kv) (h : SessionsInv st.sessions) :
    SessionsInv (offerGet t sid st).2.sessions := by
  unfold offerGet
  cases hga : (getAlive t sid st).1 with
  | error r =>
    simp only [hga]
    rcases getAlive_sessions t sid st with hc | hc <;> rw [hc]
    · exact h
    · exact SessionsInv_mapDel _ _ h
  | ok sess =>
    obtain ⟨hst, e, hf⟩ := getAlive_ok t sid st sess hga
    simp only [hga]
    cases ho : sess.offerEnvelope with
    | none => simp only [ho]; rw [hst]; exact h
    | some env => simp only [ho]; rw [hst]; exact h

theorem resolveAfterPin_sessions_cases (t : Nat) (s? : Option String) (st : Kv) :
    (resolveAfterPin t s? st).2.sessions = st.sessions ∨
      ∃ sid, (resolveAfterPin t s? st).2.sessions = mapDel st.sessions sid := by
  unfold resolveAfterPin getSessionKv
  cases s? with
  | none => left; rfl
  | some sid =>
    cases hg : (memGet t st.sessions sid).1 with
    | none =>
      simp only [hg]
      rcases memGet_state_cases t st.sessions sid with hc | hc
      · left; simpa using hc
      · right; exact ⟨sid, by simpa using hc⟩
    | some sess =>
      simp only [hg]
      have h2 := memGet_some_state t st.sessions sid sess hg
      by_cases ht : getSessionTtlSec t sid { st with sessions := (memGet t st.sessions sid).2 } ≤ 0
      · rw [if_pos ht]; left; simpa using h2
      · rw [if_neg ht]; left; simpa using h2

theorem resolveHandler_inv (t : Nat) (ip pin : String) (st : Kv) (h : SessionsInv st.sessions) :
    SessionsInv (resolveHandler t ip pin st).2.sessions := by
  unfold resolveHandler
  by_cases hfmt : pinFormat6 pin = true
  · rw [if_neg (by simp [hfmt])]
    by_cases hra : (rateAllowResolve t ip st).1 = true
    · rw [if_neg (by simp [hra])]
      have hx : (pinDel pin (pinRead t pin (rateAllowResolve t ip st).2).2).sessions
          = st.sessions := by
        rw [pinDel_sessions, pinRead_sessions, rateAllowResolve_sessions]
      rcases resolveAfterPin_sessions_cases t (pinRead t pin (rateAllowResolve t ip st).2).1
          (pinDel pin (pinRead t pin (rateAllowResolve t ip st).2).2) with hc | ⟨s2, hc⟩
      · rw [hc, hx]; exact h
      · rw [hc, hx]; exact SessionsInv_mapDel _ _ h
    · rw [if_pos (by simpa using hra)]
      show SessionsInv (rateAllowResolve t ip st).2.sessions
      rw [rateAllowResolve_sessions]
      exact h
  · rw [if_pos (by simpa using hfmt)]
    exact h

theorem sessionDeleteKv_inv (sid : String) (st : Kv) (h : SessionsInv st.sessions) :
    SessionsInv (sessionDeleteKv sid st).2.sessions := by
  unfold sessionDeleteKv deleteSessionKv
  by_cases hu : isUuidV4 sid = true
  · rw [if_neg (by simp [hu])]
    exact SessionsInv_mapDel _ _ h
  · rw [if_pos (by simpa using hu)]
    exact h

theorem applyEnvOp_inv (st : Kv) (p : Nat × EnvOp) (h : SessionsInv st.sessions) :
    SessionsInv (applyEnvOp st p).sessions := by
  obtain ⟨t, op⟩ := p
  cases op with
  | create id salt cands => exact createSessionKv_inv t id salt SESS_TTL_SEC cands st h
  | postOffer sid env? => exact offerPost_inv t sid env? st h
  | postAnswer sid env? => exact answerPost_inv t sid env? st h
  | readOffer sid => exact offerGet_inv t sid st h
  | readAnswer sid => exact answerGet_inv t sid st h
  | resolve ip pin => exact resolveHandler_inv t ip pin st h
  | remove sid => exact sessionDeleteKv_inv sid st h

theorem runEnv_inv (ops : List (Nat × EnvOp)) : SessionsInv (runEnv ops).sessions := by
  unfold runEnv
  have hgen : ∀ st : Kv, SessionsInv st.sessions →
      SessionsInv (ops.foldl applyEnvOp st).sessions := by
    induction ops with
    | nil => intro st h; exact h
    | cons p rest ih =>
      intro st h
      exact ih _ (applyEnvOp_inv st p h)
  apply hgen
  intro k p hf
  cases hf

theorem saveSession_mapFind (t : Nat) (sess : EnvSession) (o : Option Int) (st : Kv)
    (k : String) (hk : sess.id = k) :
    ∃ e', mapFind (saveSession t sess o st).sessions k
      = some { val := sess, exp := e' } := by
  unfold saveSession memSet
  exact ⟨_, by rw [mapFind_mapSet, if_pos hk]⟩

/-- **C8.**  Envelope ordering and at-most-once setting.  Part 1: for an
alive session and a valid envelope body, POST answer succeeds exactly when an
offer is present and no answer is present — otherwise it replies
409 `offer_not_set` / 409 `answer_already_set` with the store unchanged — and
POST offer on a session that already has an offer replies
409 `offer_already_set` with the store unchanged.  Part 2: in every store
reachable by any sequence of envelope-session operations, a session carries
an answer envelope only if it carries an offer envelope. -/
theorem c8_offer_before_answer :
    (∀ t sid st sess exp env,
        isUuidV4 sid = true →
        mapFind (Kv.sessions st) sid = some { val := sess, exp := exp } →
        t + 1000 ≤ exp →
        EnvSession.id sess = sid →
        validateEnvelope (some env) (EnvSession.id sess) = none →
        ((sess.offerEnvelope = none →
            (answerPost t sid (some env) st).1
              = { code := 409, error := some "offer_not_set" } ∧
            (answerPost t sid (some env) st).2 = st) ∧
          (∀ o a, sess.offerEnvelope = some o → sess.answerEnvelope = some a →
            (answerPost t sid (some env) st).1
              = { code := 409, error := some "answer_already_set" } ∧
            (answerPost t sid (some env) st).2 = st) ∧
          (∀ o, sess.offerEnvelope = some o → sess.answerEnvelope = none →
            (answerPost t sid (some env) st).1.code = 200 ∧
            ∃ e', mapFind (answerPost t sid (some env) st).2.sessions sid
              = some { val := { sess with answerEnvelope := some env }, exp := e' }) ∧
          (∀ o, sess.offerEnvelope = some o →
            (offerPost t sid (some env) st).1
              = { code := 409, error := some "offer_already_set" } ∧
            (offerPost t sid (some env) st).2 = st))) ∧
      (∀ ops sid p, mapFind (runEnv ops).sessions sid = some p →
        p.val.answerEnvelope.isSome = true → p.val.offerEnvelope.isSome = true) := by
  constructor
  · intro t sid st sess exp env hu hf halive hid hval
    have hga := getAlive_of_live t sid st sess exp hu hf halive
    refine ⟨?_, ?_, ?_, ?_⟩
    · intro ho
      unfold answerPost
      simp only [hga, hval, ho]
      exact ⟨rfl, rfl⟩
    · intro o a ho ha
      unfold answerPost
      simp only [hga, hval, ho, ha]
      rw [if_neg (by simp)]
      rw [if_pos (by simp)]
      exact ⟨rfl, rfl⟩
    · intro o ho ha
      unfold answerPost
      simp only [hga, hval]
      rw [if_neg (by simp [ho])]
      rw [if_neg (by simp [ha])]
      refine ⟨rfl, ?_⟩
      exact saveSession_mapFind t { sess with answerEnvelope := some env } none st sid hid
    · intro o ho
      unfold offerPost
      simp only [hga, hval, ho]
      rw [if_pos (by simp)]
      exact ⟨rfl, rfl⟩
  · exact fun ops sid p hf ha => runEnv_inv ops sid p hf ha

/-- **C8 (witness).**  The first part applied to the concrete store whose
session has both envelopes set: POST answer replies `answer_already_set` and
POST offer replies `offer_already_set`, both leaving the store unchanged. -/
theorem c8_witness :
    ((answerPost 0 sidB (some envB) kvAnswerReady).1
        = { code := 409, error := some "answer_already_set" } ∧
      (answerPost 0 sidB (some envB) kvAnswerReady).2 = kvAnswerReady) ∧
      ((offerPost 0 sidB (some envB) kvAnswerReady).1
        = { code := 409, error := some "offer_already_set" } ∧
      (offerPost 0 sidB (some envB) kvAnswerReady).2 = kvAnswerReady) := by
  have h := (c8_offer_before_answer.1 0 sidB kvAnswerReady
    { id := sidB, pin := "123456", saltB64 := "c2FsdA==", createdAt := 0, expiresAtMs := 5000, offerEnvelope := some envB, answerEnvelope := some envB, answerDelivered := false }
    5000 envB (by decide) (by decide) (by decide) (by decide) (by decide))
  exact ⟨h.2.1 envB envB (by decide) (by decide), h.2.2.2 envB (by decide)⟩

/-- **C9 (counterexample).**  The `sessionStore.js`-backed `sessionDelete`
handler is not the idempotent-204 DELETE the claim describes: DELETE of a
session id that does not exist replies 410 `session_expired` (and DELETE of
an existing session replies 200, merely blanking the envelopes). -/
theorem c9_counterexample :
    (legacySessionDelete 0 "DELETE" sidA emptyLStore).1.code = 410 ∧
      (legacySessionDelete 0 "DELETE" sidA emptyLStore).1.error = some "session_expired" := by
  decide

/-- **C9 (amended).**  In the Express server (and the `_lib/store.js`-backed
handler), DELETE of any well-formed (UUID v4) session id replies 204 whether
or not the session exists, twice in a row replies 204 twice, and any
subsequent GET of the session's offer or answer replies 404; the legacy
`sessionStore.js`-backed handler instead replies 410 for a missing session. -/
theorem c9_delete_idempotent_express (t : Nat) (st : XState) (sid : String)
    (hu : isUuidV4 sid = true) :
    (xDelete sid st).1.code = 204 ∧
      (xDelete sid (xDelete sid st).2).1.code = 204 ∧
      (xGetOffer t sid (xDelete sid st).2).code = 404 ∧
      (xGetOffer t sid (xDelete sid st).2).error = some "session_not_found" ∧
      (xGetAnswer t sid (xDelete sid st).2).1.code = 404 := by
  have hcode : ∀ s : XState, (xDelete sid s).1.code = 204 := by
    intro s
    unfold xDelete
    rw [if_neg (by simp [hu])]
  have hfind : mapFind (xDelete sid st).2.sessions sid = none := by
    unfold xDelete
    rw [if_neg (by simp [hu])]
    simp only
    rw [mapFind_mapDel, if_pos rfl]
  have halive : xGetAlive t sid (xDelete sid st).2
      = .error { code := 404, error := some "session_not_found" } := by
    unfold xGetAlive
    rw [if_neg (by simp [hu])]
    rw [hfind]
  refine ⟨hcode st, hcode _, ?_, ?_, ?_⟩
  · unfold xGetOffer
    simp only [halive]
  · unfold xGetOffer
    simp only [halive]
  · unfold xGetAnswer
    simp only [halive]

/-- **C9 (witness).**  The amended theorem on the empty Express state. -/
theorem c9_witness :
    (xDelete sidA { sessions := [], pinToSession := [] }).1.code = 204 ∧
      (xDelete sidA (xDelete sidA { sessions := [], pinToSession := [] }).2).1.code = 204 ∧
      (xGetOffer 0 sidA (xDelete sidA { sessions := [], pinToSession := [] }).2).code = 404 ∧
      (xGetOffer 0 sidA (xDelete sidA { sessions := [], pinToSession := [] }).2).error
        = some "session_not_found" ∧
      (xGetAnswer 0 sidA (xDelete sidA { sessions := [], pinToSession := [] }).2).1.code = 404 :=
  c9_delete_idempotent_express 0 { sessions := [], pinToSession := [] } sidA (by decide)
